import Mathlib

/-!
Replication-health prober (`src/sentinel_service.cc`)

A shallow embedding of the probing / parsing / publishing pipeline of
`sentinel_service.cc`, and theorems about it.

Conventions of the embedding.

* A `std::string` is a `Str`, a list of characters; each character stands for
  one `char` of the source.
* A `std::map<std::string, T>` is a `Dict T`: an association list kept sorted by
  key (byte-wise lexicographic order, the order of `std::map`), with unique keys.
* A C++ exception that leaves the function is the result `none`.
* `Json::Value` documents are embedded as values; a packet whose bytes are the
  rendering of a document by `Json::writeString` (jsoncpp) is embedded as that
  document.
-/

namespace Sentinel

/-- The source's `std::string`. -/
abbrev Str := List Char

/-! ## `std::string` and stream primitives -/

/-- The call `s.find(c)`: index of the first occurrence of `c`, `none` for `npos`. -/
def find (c : Char) : Str → Option Nat
  | [] => none
  | x :: xs => if x = c then some 0 else (find c xs).map (· + 1)

/-- The call `s.substr(pos)`. -/
def substrFrom (s : Str) (pos : Nat) : Str := s.drop pos

/-- The call `s.substr(0, n)`. -/
def substrTo (s : Str) (n : Nat) : Str := s.take n

/-- All the strings that repeated `std::getline(stream, line, delim)` reads from a
stream holding `s`: the pieces between delimiters; a final piece that is empty
(end of stream right after a delimiter, or an empty stream) is not read. -/
def getlines (delim : Char) : Str → List Str
  | [] => []
  | c :: cs =>
    if c = delim then [] :: getlines delim cs
    else
      match getlines delim cs with
      | [] => [[c]]
      | l :: ls => (c :: l) :: ls

/-- The predicate `std::isspace` in the "C" locale, the class `\s` of `std::regex`. -/
def isSpace (c : Char) : Bool :=
  c = ' ' || c = '\t' || c = '\n' || c = Char.ofNat 11 || c = Char.ofNat 12 || c = '\r'

/-- The class `[0-9]`. -/
def isDigit (c : Char) : Bool := decide ('0'.toNat ≤ c.toNat) && decide (c.toNat ≤ '9'.toNat)

/-- The call `std::regex_replace(key, std::regex("^\\s+|\\s+$"), "")`: the leading run and
the trailing run of white space are removed. -/
def trimKey (key : Str) : Str :=
  ((key.dropWhile isSpace).reverse.dropWhile isSpace).reverse

/-- The call `std::regex_match(key, std::regex("slave[0-9]+"))`: the whole key is `slave`
followed by one or more decimal digits. -/
def matchSlavePattern (key : Str) : Bool :=
  "slave".toList.isPrefixOf key && !(key.drop 5).isEmpty && (key.drop 5).all isDigit

/-- The test `key.find(p) == 0`: `key` starts with `p`. -/
def findAtZero (p key : Str) : Bool := p.isPrefixOf key

/-! ## `std::map<std::string, T>` -/

/-- Strict byte-wise lexicographic order of `std::string`. -/
def strLt : Str → Str → Bool
  | [], [] => false
  | [], _ :: _ => true
  | _ :: _, [] => false
  | a :: as, b :: bs => decide (a.toNat < b.toNat) || (a = b && strLt as bs)

/-- A `std::map<std::string, T>`: entries sorted by key, keys unique. -/
abbrev Dict (T : Type) := List (Str × T)

/-- The assignment `m[k] = v`: insert, or overwrite the value of an existing key. -/
def Dict.set {T : Type} (k : Str) (v : T) : Dict T → Dict T
  | [] => [(k, v)]
  | (k', v') :: rest =>
    if k = k' then (k, v) :: rest
    else if strLt k k' then (k, v) :: (k', v') :: rest
    else (k', v') :: Dict.set k v rest

/-- The lookup `m.find(k)`: the value stored under `k`, if any. -/
def Dict.get {T : Type} (k : Str) : Dict T → Option T
  | [] => none
  | (k', v') :: rest => if k = k' then some v' else Dict.get k rest

/-! ## `std::stoi` -/

/-- The value of a run of decimal digits, most significant first. -/
def digitsValue (acc : Nat) (s : Str) : Nat :=
  s.foldl (fun a c => a * 10 + (c.toNat - '0'.toNat)) acc

/-- The call `std::stoi(s)` (base 10): skip leading white space, read an optional sign and
the longest run of digits, ignore what follows. `none` is the exception:
`std::invalid_argument` when there is no digit, `std::out_of_range` when the
value is not an `int`. -/
def stoi (s : Str) : Option Int :=
  let t := s.dropWhile isSpace
  let neg : Bool := t.head? == some '-'
  let u : Str := if t.head? == some '-' || t.head? == some '+' then t.tail else t
  let ds := u.takeWhile isDigit
  if ds.isEmpty then none
  else
    let n : Int := if neg then - (digitsValue 0 ds : Int) else (digitsValue 0 ds : Int)
    if -2147483648 ≤ n ∧ n ≤ 2147483647 then some n else none

/-- The call `std::to_string(n)` for an unsigned length: the decimal digits. -/
def natToString (n : Nat) : Str := Nat.toDigits 10 n

/-- The call `std::to_string(n)` for an `int`: a minus sign for a negative value, then the
decimal digits of the magnitude. -/
def to_string (n : Int) : Str :=
  if n < 0 then '-' :: Nat.toDigits 10 n.natAbs else Nat.toDigits 10 n.natAbs

/-! ## Data model (`sentinel_service.h`, as used by the source) -/

/-- One replica as reported by the probed node (`pikiwidb::InfoSlave`). -/
structure InfoSlave where
  ip : Str
  port : Int
  state : Int
  offset : Int
  deriving DecidableEq

/-- The structured status (`pikiwidb::InfoReplication`). -/
structure InfoReplication where
  info : Dict Str
  slaves : List InfoSlave
  deriving DecidableEq

/-! ## The keyed parser, `::parseInfoReplication` (lines 21-113) -/

/-- Lines 44-54: the `subkey=subvalue` pairs of one slave line, collected into a
map; a piece without `=` is reported and skipped. -/
def slaveKvs (value : Str) : Dict Str :=
  (getlines ',' value).foldl
    (fun slave kvPair =>
      match find '=' kvPair with
      | none => slave
      | some kvPos => Dict.set (substrTo kvPair kvPos) (substrFrom kvPair (kvPos + 1)) slave)
    []

/-- Lines 57-73: the pairs of a `db0` line; only `binlog_offset` whose value
holds a space is used, split at its first space. -/
def dbKvs (value : Str) (info : Dict Str) : Dict Str :=
  (getlines ',' value).foldl
    (fun info kvPair =>
      match find '=' kvPair with
      | none => info
      | some kvPos =>
        let dbKey := substrTo kvPair kvPos
        let dbValue := substrFrom kvPair (kvPos + 1)
        if dbKey = "binlog_offset".toList then
          match find ' ' dbValue with
          | none => info
          | some offsetPos =>
            Dict.set "binlog_offset".toList (substrFrom dbValue (offsetPos + 1))
              (Dict.set "binlog_file_num".toList (substrTo dbValue offsetPos) info)
        else info)
    info

/-- The locals `info` and `slaveMap` of the parser. -/
structure ScanState where
  info : Dict Str
  slaveMap : List (Dict Str)
  deriving DecidableEq

/-- Lines 32-76: the body of the line loop. -/
def scanLine (st : ScanState) (line : Str) : ScanState :=
  match find ':' line with
  | none => st
  | some pos =>
    let key := trimKey (substrTo line pos)
    let value := substrFrom line (pos + 1)
    if matchSlavePattern key then
      { st with slaveMap := st.slaveMap ++ [slaveKvs value] }
    else if findAtZero "db0".toList key then
      { st with info := dbKvs value st.info }
    else
      { st with info := Dict.set key value st.info }

/-- Lines 31-77: the line loop over the whole text. -/
def scanText (text : Str) : ScanState :=
  (getlines '\n' text).foldl scanLine { info := [], slaveMap := [] }

/-- A `Json::Value` element of `slavesJson`: `null`, or an object whose members
are strings. -/
inductive SlaveJson where
  | null
  | object (members : Dict Str)
  deriving DecidableEq

/-- Lines 82-85: `slaveJson[k] = v` for every entry of the map; a map without
entries leaves the value `null`. -/
def slaveToJson (slave : Dict Str) : SlaveJson :=
  slave.foldl
    (fun j kv =>
      match j with
      | SlaveJson.null => SlaveJson.object (Dict.set kv.1 kv.2 [])
      | SlaveJson.object ms => SlaveJson.object (Dict.set kv.1 kv.2 ms))
    SlaveJson.null

/-- The call `slave[key].asString()` on a const `Json::Value`: a missing member, and any
member of `null`, is the null value, whose `asString()` is the empty string. -/
def memberAsString (slave : SlaveJson) (key : Str) : Str :=
  match slave with
  | SlaveJson.null => []
  | SlaveJson.object ms => (Dict.get key ms).getD []

/-- Lines 99-104: one descriptor from one element of `slavesRoot`; `none` when a
`std::stoi` throws. -/
def toInfoSlave (slave : SlaveJson) : Option InfoSlave :=
  match stoi (memberAsString slave "port".toList) with
  | none => none
  | some port =>
    match stoi (memberAsString slave "state".toList) with
    | none => none
    | some state =>
      match stoi (memberAsString slave "offset".toList) with
      | none => none
      | some offset =>
        some { ip := memberAsString slave "ip".toList, port := port, state := state,
               offset := offset }

/-- Lines 98-105: the loop over `slavesRoot`, in order; the first `std::stoi` that
throws ends it with the exception. -/
def convertSlaves : List SlaveJson → Option (List InfoSlave)
  | [] => some []
  | j :: js =>
    match toInfoSlave j with
    | none => none
    | some s =>
      match convertSlaves js with
      | none => none
      | some ss => some (s :: ss)

/-- Lines 79-107. `slavesJson` is written with `Json::writeString` and read back
with `Json::parseFromStream` into `slavesRoot`; the document read back is taken
to be the document written (an array of `null`s and objects of strings), so the
failure branch of line 95 is not taken. -/
def buildSlaves (slaveMap : List (Dict Str)) : Option (List InfoSlave) :=
  if slaveMap.isEmpty then some []
  else
    let slavesJson := slaveMap.map slaveToJson
    let slavesRoot := slavesJson
    convertSlaves slavesRoot

/-- The keyed parser `::parseInfoReplication(text)`; `none` when an exception of
`std::stoi` leaves it. -/
def parseInfoReplication (text : Str) : Option InfoReplication :=
  let st := scanText text
  match buildSlaves st.slaveMap with
  | none => none
  | some slaves => some { info := st.info, slaves := slaves }

/-! ## The heartbeat command (lines 200-204) -/

/-- Lines 201-204 of `PKPingService::PKPingRedis`: the command `pkping_cmd`. -/
def pkpingCmd (group_id term_id : Int) (msg : Str) : Str :=
  let pkping_cmd := "*4\r\n$6\r\nPKPING\r\n".toList
  let pkping_cmd := pkping_cmd ++
    ("$".toList ++ natToString (to_string group_id).length ++ "\r\n".toList ++
      to_string group_id ++ "\r\n".toList)
  let pkping_cmd := pkping_cmd ++
    ("$".toList ++ natToString (to_string term_id).length ++ "\r\n".toList ++
      to_string term_id ++ "\r\n".toList)
  pkping_cmd ++
    ("$".toList ++ natToString msg.length ++ "\r\n".toList ++ msg ++ "\r\n".toList)

/-- One element of a length-prefixed array request, in the words of the
specification: `$<byteLength>\r\n<bytes>\r\n`. -/
def specBulk (bytes : Str) : Str :=
  '$' :: (natToString bytes.length ++ ('\r' :: '\n' :: (bytes ++ ['\r', '\n'])))

/-- The encoder `Encode(groupId, termId, payload)` in the words of the specification: `*4\r\n`,
then four framed elements: the command name, the decimal group id, the decimal
term id and the payload. -/
def specEncode (groupId termId : Int) (payload : Str) : Str :=
  "*4\r\n".toList ++
    (([ "PKPING".toList, to_string groupId, to_string termId, payload ].map specBulk).flatten)

/-! ## The published document (lines 150-164) -/

/-- A `Json::Value` that is a string or an integer. -/
inductive JScalar where
  | str (s : Str)
  | int (n : Int)
  deriving DecidableEq

/-- A member of the published root object: a string, or the `slaves` array of
objects. -/
inductive JMember where
  | scalar (v : JScalar)
  | array (items : List (Dict JScalar))
  deriving DecidableEq

/-- The published `Json::Value root`: `null` until a member is assigned. -/
inductive JRoot where
  | null
  | object (members : Dict JMember)
  deriving DecidableEq

/-- The members of the root; `null` has none. -/
def JRoot.members : JRoot → Dict JMember
  | JRoot.null => []
  | JRoot.object ms => ms

/-- Line 154: `root[key] = value`. -/
def rootSetString (root : JRoot) (key value : Str) : JRoot :=
  JRoot.object (Dict.set key (JMember.scalar (JScalar.str value)) root.members)

/-- Lines 157-161: the object built for one slave. -/
def slaveObject (slave : InfoSlave) : Dict JScalar :=
  Dict.set "offset".toList (JScalar.int slave.offset)
    (Dict.set "state".toList (JScalar.int slave.state)
      (Dict.set "port".toList (JScalar.int slave.port)
        (Dict.set "ip".toList (JScalar.str slave.ip) [])))

/-- Line 162: `root["slaves"].append(slaveJson)`. The member is created as an
array when absent, extended when it is an array; `append` on a member that is
a string raises (`none`). -/
def rootAppendSlave (root : JRoot) (slaveJson : Dict JScalar) : Option JRoot :=
  match Dict.get "slaves".toList root.members with
  | none => some (JRoot.object (Dict.set "slaves".toList (JMember.array [slaveJson]) root.members))
  | some (JMember.array items) =>
    some (JRoot.object (Dict.set "slaves".toList (JMember.array (items ++ [slaveJson]))
      root.members))
  | some (JMember.scalar _) => none

/-- Lines 156-163: the loop over the slaves. -/
def rootAppendSlaves (root : JRoot) : List InfoSlave → Option JRoot
  | [] => some root
  | slave :: rest =>
    match rootAppendSlave root (slaveObject slave) with
    | none => none
    | some root' => rootAppendSlaves root' rest

/-- Lines 152-163: the document `root` built from a status. -/
def buildRoot (infoReplication : InfoReplication) : Option JRoot :=
  rootAppendSlaves
    (infoReplication.info.foldl (fun root kv => rootSetString root kv.1 kv.2) JRoot.null)
    infoReplication.slaves

/-! ## The reply buffer (lines 222-230) -/

/-- The conversion of the `ssize_t` that `read` returns to the 64-bit `size_t` that
indexes the vector and counts the bytes of the string. -/
def toSizeT (n : Int) : Nat := (n % 18446744073709551616).toNat

/-- Lines 225-229 of `PKPingService::sendRedisCommand`, after the `read`: `buffer`
is the vector of 4096 bytes as `read` left it and `length` is what `read`
returned. Line 227 writes the terminator at `buffer[length]`; a write outside
the vector is undefined behaviour, the result `none`. Line 229 returns the
first `length` bytes. -/
def sendRedisCommand (buffer : Str) (length : Int) : Option Str :=
  if toSizeT length < buffer.length then
    some ((buffer.set (toSizeT length) (Char.ofNat 0)).take (toSizeT length))
  else none

/-! ## Probing and the monitoring loop (lines 135-221) -/

/-- An entry of `hosts_`. -/
structure Host where
  host : Str
  port : Int
  group_id : Int
  term_id : Int
  deriving DecidableEq

/-- What the network does during one call of `PKPingRedis`: `socket` fails
(line 177), `inet_pton` rejects the host (line 188), `connect` fails (line 194),
or the connection is made and the command is sent, after which the one `read`
of `sendRedisCommand` leaves the vector of 4096 bytes as `buffer` and returns
`length`: the number of bytes read, or -1 when the read fails. -/
inductive ProbeOutcome where
  | socketError
  | invalidAddress
  | connectFailed
  | connected (buffer : Str) (length : Int)
  deriving DecidableEq

/-- The outcome in which the read succeeds and delivers the bytes `reply`: they
stand at the start of the zero-filled vector and their number is returned. -/
def ProbeOutcome.replied (reply : Str) : ProbeOutcome :=
  ProbeOutcome.connected (reply ++ List.replicate (4096 - reply.length) (Char.ofNat 0))
    reply.length

/-- The outcome in which the read fails after the connection was made: the
vector is left zero-filled and -1 is returned. -/
def ProbeOutcome.readFailed : ProbeOutcome :=
  ProbeOutcome.connected (List.replicate 4096 (Char.ofNat 0)) (-1)

/-- What `PKPingRedis` returns: the empty string of the three failure exits, or
`json_info.toStyledString()`, the rendering of the parsed reply. -/
inductive PingReturn where
  | emptyString
  | styled (json_info : InfoReplication)
  deriving DecidableEq

/-- A packet handed to `SendPacket`: plain bytes, or the bytes that
`Json::writeString` renders for a document. -/
inductive Packet where
  | bytes (data : Str)
  | json (root : JRoot)
  deriving DecidableEq

/-- What the loop has done to the outside: `dialed`, the host and port of every
call of `PKPingRedis`, in order; `commands`, the commands sent to nodes; `sink`,
the packets sent to `client_`. -/
structure World where
  dialed : List (Str × Int)
  commands : List Str
  sink : List Packet
  deriving DecidableEq

/-- The result of a piece of the loop: it ran to its end, or it did not return:
an exception left it (nothing in the source catches one) or the process was
ended by a write outside the reply buffer. -/
inductive RunResult where
  | completed (w : World)
  | raised (w : World)
  deriving DecidableEq

/-- Lines 175-221, `PKPingService::PKPingRedis`, with the outcome of its network
exchange given. Returns the world after the call and the returned string. The
string is `none` when the call does not return: `sendRedisCommand` (line 207)
writes outside its buffer, which ends the process, or
`parseInfoReplication(reply)` (line 211) raises. -/
def PKPingRedis (w : World) (outcome : ProbeOutcome) (host : Str) (port group_id term_id : Int)
    (msg : Str) : World × Option PingReturn :=
  let w := { w with dialed := w.dialed ++ [(host, port)] }
  match outcome with
  | ProbeOutcome.socketError => (w, some PingReturn.emptyString)
  | ProbeOutcome.invalidAddress => (w, some PingReturn.emptyString)
  | ProbeOutcome.connectFailed => (w, some PingReturn.emptyString)
  | ProbeOutcome.connected buffer length =>
    let w := { w with commands := w.commands ++ [pkpingCmd group_id term_id msg] }
    match sendRedisCommand buffer length with
    | none => (w, none)
    | some reply =>
      match parseInfoReplication reply with
      | none => (w, none)
      | some json_info => (w, some (PingReturn.styled json_info))

/-- Lines 142-168: the body of the loop over `hosts_` for one node. `client` tells
whether `client_` is set. `msg` is the empty string declared at line 142; it is
passed to `PKPingRedis` as the payload and the string that `PKPingRedis` returns
is not assigned to anything. The unqualified call `parseInfoReplication(msg)`
of line 148 (like the one of line 211) is taken to reach the keyed parser, the
only one declared above it in the file. -/
def runNode (client : Bool) (w : World) (outcome : ProbeOutcome) (node : Host) : RunResult :=
  let msg : Str := []
  match PKPingRedis w outcome node.host node.port node.group_id node.term_id msg with
  | (w, none) => RunResult.raised w
  | (w, some _) =>
    if client then
      let w := { w with sink := w.sink ++ [Packet.bytes msg] }
      match parseInfoReplication msg with
      | none => RunResult.raised w
      | some infoReplication =>
        match buildRoot infoReplication with
        | none => RunResult.raised w
        | some root => RunResult.completed { w with sink := w.sink ++ [Packet.json root] }
    else RunResult.completed w

/-- Lines 141-170: one pass of the loop over `hosts_`; `net n` is the outcome of
the `n`-th network exchange of the pass. -/
def runCycle (client : Bool) (net : Nat → ProbeOutcome) : Nat → World → List Host → RunResult
  | _, w, [] => RunResult.completed w
  | n, w, node :: rest =>
    match runNode client w (net n) node with
    | RunResult.raised w' => RunResult.raised w'
    | RunResult.completed w' => runCycle client net (n + 1) w' rest

/-- The world before anything has happened. -/
def World.initial : World := { dialed := [], commands := [], sink := [] }

/-! ## The registry and the lifecycle (lines 117-137) -/

/-- Lines 135-137, `PKPingService::AddHost`: `hosts_.emplace_back(...)`. -/
def AddHost (hosts_ : List Host) (host : Str) (port group_id term_id : Int) : List Host :=
  hosts_ ++ [{ host := host, port := port, group_id := group_id, term_id := term_id }]

/-- The members of `PKPingService` that `Start` and `Stop` use, and what they do
to the process: `running_`; `thread_`, the loop that the handle owns while it
is joinable; `live`, the loops (threads that execute `Run`) created and not yet
ended; `next`, the number of loops created so far; `terminated`, whether
`std::terminate` has been called. -/
structure Service where
  running_ : Bool
  thread_ : Option Nat
  live : List Nat
  next : Nat
  terminated : Bool
  deriving DecidableEq

/-- Line 117, the constructor: not running, no thread. -/
def Service.initial : Service :=
  { running_ := false, thread_ := none, live := [], next := 0, terminated := false }

/-- Lines 123-126, `PKPingService::Start`. Line 124 sets the flag. Line 125 first
constructs the temporary `std::thread(&PKPingService::Run, this)`, which
creates a loop, and then move-assigns it to `thread_`; move assignment to a
handle that is still joinable calls `std::terminate`. -/
def Start (s : Service) : Service :=
  if s.terminated then s
  else
    let s := { s with running_ := true }
    let loop := s.next
    let s := { s with live := s.live ++ [loop], next := loop + 1 }
    match s.thread_ with
    | some _ => { s with terminated := true }
    | none => { s with thread_ := some loop }

/-- Lines 128-133, `PKPingService::Stop`, at its return. Line 129 clears the flag;
when the handle is joinable, `join` returns once the loop it owns has ended,
and leaves the handle not joinable. -/
def Stop (s : Service) : Service :=
  if s.terminated then s
  else
    let s := { s with running_ := false }
    match s.thread_ with
    | some loop => { s with thread_ := none, live := s.live.erase loop }
    | none => s

/-- Where the control of `Run` (lines 139-173) stands: at the test of the `while`
(line 140); inside the `for` (lines 141-170) with the nodes of the pass still
to be processed; after `Run` has returned; or after an exception has left
`Run`, which ends the thread and the process (`std::terminate`). -/
inductive LoopPc where
  | whileTest
  | forBody (todo : List Host)
  | returned
  | terminated
  deriving DecidableEq

/-- A loop in execution: the flag `running_` as the loop reads it, the control
point, the world, the number of network exchanges made so far, and the nodes
whose step has been started so far. -/
structure LoopState where
  running_ : Bool
  pc : LoopPc
  world : World
  probes : Nat
  started : List Host
  deriving DecidableEq

/-- One step of `Run`. At the `while` test the flag decides between a new pass
over `hosts_` and the return. Inside the `for`, the body is run for the next
node, without reading the flag: it is `runNode`, and when it raises the
exception leaves `Run`. When no node is left the pass ends (line 171) and
control goes back to the `while` test. -/
def loopStep (client : Bool) (net : Nat → ProbeOutcome) (hosts_ : List Host)
    (s : LoopState) : LoopState :=
  match s.pc with
  | LoopPc.whileTest =>
    if s.running_ then { s with pc := LoopPc.forBody hosts_ }
    else { s with pc := LoopPc.returned }
  | LoopPc.forBody [] => { s with pc := LoopPc.whileTest }
  | LoopPc.forBody (node :: rest) =>
    match runNode client s.world (net s.probes) node with
    | RunResult.completed w =>
      { s with world := w, probes := s.probes + 1, started := s.started ++ [node],
               pc := LoopPc.forBody rest }
    | RunResult.raised w =>
      { s with world := w, probes := s.probes + 1, started := s.started ++ [node],
               pc := LoopPc.terminated }
  | LoopPc.returned => s
  | LoopPc.terminated => s

/-- Any number of steps of `Run`. -/
def loopSteps (client : Bool) (net : Nat → ProbeOutcome) (hosts_ : List Host) :
    Nat → LoopState → LoopState
  | 0, s => s
  | n + 1, s => loopSteps client net hosts_ n (loopStep client net hosts_ s)

/-- Line 129 as the loop sees it: the flag is cleared, the control point of the
loop is not touched. -/
def requestStop (s : LoopState) : LoopState := { s with running_ := false }

/-- Line 131, `thread_.join()`, as the loop sees it: the caller waits while the
loop takes its steps, and `join` returns at the first state in which `Run` has
returned. `fuel` bounds the number of steps waited for; `none` means that
`Run` has not returned within them. -/
def joinLoop (client : Bool) (net : Nat → ProbeOutcome) (hosts_ : List Host) :
    Nat → LoopState → Option LoopState
  | 0, s => if s.pc = LoopPc.returned then some s else none
  | fuel + 1, s =>
    if s.pc = LoopPc.returned then some s
    else joinLoop client net hosts_ fuel (loopStep client net hosts_ s)

/-- Lines 128-133, `PKPingService::Stop`, as the loop sees it: the flag is
cleared, then the loop is joined. The result is the state of the loop when
`Stop` returns. -/
def stopLoop (client : Bool) (net : Nat → ProbeOutcome) (hosts_ : List Host) (fuel : Nat)
    (s : LoopState) : Option LoopState :=
  joinLoop client net hosts_ fuel (requestStop s)

/-! ## The positional parser, `pikiwidb::parseInfoReplication` (lines 233-270) -/

/-- Lines 253-261: the tokens of a slave value assigned by position to the
fields of `slave`; a token after the fourth is ignored. `none` when a
`std::stoi` throws. -/
def positionalFields : Nat → InfoSlave → List Str → Option InfoSlave
  | _, slave, [] => some slave
  | field, slave, token :: rest =>
    if field = 0 then positionalFields (field + 1) { slave with ip := token } rest
    else if field = 1 then
      match stoi token with
      | none => none
      | some n => positionalFields (field + 1) { slave with port := n } rest
    else if field = 2 then
      match stoi token with
      | none => none
      | some n => positionalFields (field + 1) { slave with state := n } rest
    else if field = 3 then
      match stoi token with
      | none => none
      | some n => positionalFields (field + 1) { slave with offset := n } rest
    else positionalFields (field + 1) slave rest

/-- Lines 239-266: the body of the line loop of the positional parser. `slave0` is
the value of the default-initialised `InfoSlave slave;` of line 251, which the
header decides. -/
def positionalLine (slave0 : InfoSlave) (replication : InfoReplication) (line : Str) :
    Option InfoReplication :=
  if line.isEmpty || line.head? == some '#' then some replication
  else
    match find ':' line with
    | none => some replication
    | some colon_pos =>
      let key := substrTo line colon_pos
      let value := substrFrom line (colon_pos + 1)
      if findAtZero "slave".toList key then
        match positionalFields 0 slave0 (getlines ',' value) with
        | none => none
        | some slave => some { replication with slaves := replication.slaves ++ [slave] }
      else some { replication with info := Dict.set key value replication.info }

/-- Lines 238-267: the line loop of the positional parser. -/
def positionalLines (slave0 : InfoSlave) : InfoReplication → List Str → Option InfoReplication
  | replication, [] => some replication
  | replication, line :: rest =>
    match positionalLine slave0 replication line with
    | none => none
    | some replication' => positionalLines slave0 replication' rest

/-- The positional parser `pikiwidb::parseInfoReplication(info)`; `none` when an
exception of `std::stoi` leaves it. -/
def pikiwidb.parseInfoReplication (slave0 : InfoSlave) (info : Str) : Option InfoReplication :=
  positionalLines slave0 { info := [], slaves := [] } (getlines '\n' info)

/-! ## Auxiliary definitions for the statements -/

/-- The pieces of `s` between delimiters, a final empty piece included. -/
def pieces (delim : Char) : Str → List Str
  | [] => [[]]
  | c :: cs =>
    if c = delim then [] :: pieces delim cs
    else
      match pieces delim cs with
      | [] => [[c]]
      | l :: ls => (c :: l) :: ls

/-- The map that a line adds to `slaveMap`, when the line is a slave line. -/
def slaveOfLine (line : Str) : Option (Dict Str) :=
  match find ':' line with
  | none => none
  | some pos =>
    if matchSlavePattern (trimKey (substrTo line pos)) then
      some (slaveKvs (substrFrom line (pos + 1)))
    else none

/-- The effect of a line on `info`. -/
def infoOfLine (info : Dict Str) (line : Str) : Dict Str :=
  match find ':' line with
  | none => info
  | some pos =>
    if matchSlavePattern (trimKey (substrTo line pos)) then info
    else if findAtZero "db0".toList (trimKey (substrTo line pos)) then
      dbKvs (substrFrom line (pos + 1)) info
    else Dict.set (trimKey (substrTo line pos)) (substrFrom line (pos + 1)) info

/-- The entries of a map are in strictly increasing key order. -/
def Dict.Sorted {T : Type} (m : Dict T) : Prop :=
  List.Pairwise (fun a b => strLt a.1 b.1 = true) m

/-- In the words of the specification (4.4, step 2): a line split at its first
`:`, the key trimmed of white space, the value kept raw. -/
def specSplitLine (line : Str) : Str × Str :=
  (trimKey (line.takeWhile (fun c => c != ':')), (line.dropWhile (fun c => c != ':')).drop 1)

/-- In the words of the specification: the key/value pairs of all the lines that
contain a `:`, in line order. -/
def specPairs (text : Str) : List (Str × Str) :=
  ((getlines '\n' text).filter (fun line => line.contains ':')).map specSplitLine

/-- In the words of the specification: the map obtained by inserting the pairs in
line order, a later duplicate key overwriting an earlier one. -/
def specInfo (text : Str) : Dict Str :=
  (specPairs text).foldl (fun m kv => Dict.set kv.1 kv.2 m) []

/-- A slave line: a line with a `:` whose part before the first `:`, trimmed,
matches `slave<digits>`. -/
def isSlaveLine (line : Str) : Bool := (slaveOfLine line).isSome

/-- The descriptor that one slave line alone gives; `none` when the line is not a
slave line or one of its numeric fields does not convert. -/
def descriptorOfLine (line : Str) : Option InfoSlave :=
  (slaveOfLine line).bind (fun slave => toInfoSlave (slaveToJson slave))

/-- The text of a keyed slave line, without its terminator:
`slave<digits>:ip=<ip>,port=<port>,state=<state>,offset=<offset>`, the three
numbers in decimal. -/
def keyedSlaveLine (digits ip : Str) (port state offset : Int) : Str :=
  "slave".toList ++ digits ++ ":ip=".toList ++ ip ++ ",port=".toList ++ to_string port ++
    ",state=".toList ++ to_string state ++ ",offset=".toList ++ to_string offset

/-- The states of the service in which nothing has gone wrong: `std::terminate`
has not been called and the loops alive are exactly the one that the handle
owns, none when the handle is not joinable. -/
def Service.Inv (s : Service) : Prop :=
  s.terminated = false ∧ s.live = s.thread_.toList

/-- The groups of a text: the maps of subkeys of its slave lines, in line order. -/
def slaveGroups (text : Str) : List (Dict Str) :=
  (getlines '\n' text).filterMap slaveOfLine

/-- The subvalue that a group gives to a subkey, empty when the subkey is absent. -/
def subvalue (group : Dict Str) (key : Str) : Str := (Dict.get key group).getD []

/-- The relation between a descriptor and its group, as the code establishes it:
`ip` is the subvalue of `ip`, and each numeric field is what `std::stoi` reads at
the start of the subvalue. -/
def fromGroup (d : InfoSlave) (group : Dict Str) : Prop :=
  d.ip = subvalue group "ip".toList ∧
  stoi (subvalue group "port".toList) = some d.port ∧
  stoi (subvalue group "state".toList) = some d.state ∧
  stoi (subvalue group "offset".toList) = some d.offset

/-- The assignments to `info` that one piece of a `db0` value makes, in order:
two for a pair `binlog_offset=A B`, none otherwise. -/
def dbPairWrites (kvPair : Str) : List (Str × Str) :=
  match find '=' kvPair with
  | none => []
  | some kvPos =>
    if substrTo kvPair kvPos = "binlog_offset".toList then
      match find ' ' (substrFrom kvPair (kvPos + 1)) with
      | none => []
      | some offsetPos =>
        [("binlog_file_num".toList, substrTo (substrFrom kvPair (kvPos + 1)) offsetPos),
          ("binlog_offset".toList,
            substrFrom (substrFrom kvPair (kvPos + 1)) (offsetPos + 1))]
    else []

/-- The assignments `info[k] = v` that a line makes, in order: none for a line
without `:` and for a slave line, those of its pairs for a `db0` line, the one
of its key for any other line. -/
def lineWrites (line : Str) : List (Str × Str) :=
  match find ':' line with
  | none => []
  | some pos =>
    if matchSlavePattern (trimKey (substrTo line pos)) then []
    else if findAtZero "db0".toList (trimKey (substrTo line pos)) then
      (getlines ',' (substrFrom line (pos + 1))).flatMap dbPairWrites
    else [(trimKey (substrTo line pos), substrFrom line (pos + 1))]

/-- The assignments to `info` that the lines of a text make, in line order. -/
def textWrites (text : Str) : List (Str × Str) :=
  (getlines '\n' text).flatMap lineWrites

/-- The outcomes on which `PKPingRedis` does not return: the read leaves an index
outside the buffer (it failed), or the reply makes the parser raise. -/
def ProbeOutcome.raises : ProbeOutcome → Bool
  | ProbeOutcome.connected buffer length =>
    match sendRedisCommand buffer length with
    | none => true
    | some reply => (parseInfoReplication reply).isNone
  | _ => false

/-! ## Lemmas on the string primitives -/

theorem pieces_ne_nil (d : Char) (s : Str) : pieces d s ≠ [] := by
  induction s with
  | nil => simp [pieces]
  | cons c cs ih =>
    unfold pieces
    split
    · simp
    · split <;> simp

theorem getlines_append_cons (d : Char) (a b : Str) :
    getlines d (a ++ d :: b) = pieces d a ++ getlines d b := by
  induction a with
  | nil => simp [getlines, pieces]
  | cons c cs ih =>
    by_cases hc : c = d
    · simp [getlines, pieces, hc, ih]
    · have hne := pieces_ne_nil d cs
      cases hp : pieces d cs with
      | nil => exact absurd hp hne
      | cons l ls =>
        simp [getlines, pieces, hc, ih, hp]

theorem pieces_of_not_mem (d : Char) (a : Str) (h : d ∉ a) : pieces d a = [a] := by
  induction a with
  | nil => simp [pieces]
  | cons c cs ih =>
    have hc : c ≠ d := fun e => h (by simp [e])
    have hcs : d ∉ cs := fun e => h (by simp [e])
    simp [pieces, hc, ih hcs]

theorem getlines_of_not_mem (d : Char) (a : Str) (h : d ∉ a) (hne : a ≠ []) :
    getlines d a = [a] := by
  induction a with
  | nil => exact absurd rfl hne
  | cons c cs ih =>
    have hc : c ≠ d := fun e => h (by simp [e])
    have hcs : d ∉ cs := fun e => h (by simp [e])
    cases cs with
    | nil => simp [getlines, hc]
    | cons x xs =>
      have := ih hcs (by simp)
      simp [getlines, hc] at this ⊢
      simp [getlines, this]

theorem getlines_line_delim (d : Char) (a b : Str) (h : d ∉ a) :
    getlines d (a ++ d :: b) = a :: getlines d b := by
  rw [getlines_append_cons, pieces_of_not_mem d a h]; rfl

theorem find_eq_none (c : Char) (s : Str) (h : c ∉ s) : find c s = none := by
  induction s with
  | nil => rfl
  | cons x xs ih =>
    have hx : x ≠ c := fun e => h (by simp [e])
    have hxs : c ∉ xs := fun e => h (by simp [e])
    simp [find, hx, ih hxs]

theorem find_append_cons (c : Char) (k v : Str) (h : c ∉ k) :
    find c (k ++ c :: v) = some k.length := by
  induction k with
  | nil => simp [find]
  | cons x xs ih =>
    have hx : x ≠ c := fun e => h (by simp [e])
    have hxs : c ∉ xs := fun e => h (by simp [e])
    simp [find, hx, ih hxs]

theorem find_some_split (c : Char) (s : Str) (pos : Nat) (h : find c s = some pos) :
    s = s.take pos ++ c :: s.drop (pos + 1) ∧ c ∉ s.take pos := by
  induction s generalizing pos with
  | nil => simp [find] at h
  | cons x xs ih =>
    by_cases hx : x = c
    · simp [find, hx] at h
      subst h
      simp [hx]
    · simp [find, hx] at h
      obtain ⟨q, hq, rfl⟩ := h
      have := ih q hq
      constructor
      · simp only [List.take_succ_cons, List.drop_succ_cons, List.cons_append]
        rw [← this.1]
      · simp only [List.take_succ_cons, List.mem_cons, not_or]
        exact ⟨fun e => hx e.symm, this.2⟩

theorem find_isSome_of_mem (c : Char) (s : Str) (h : c ∈ s) : ∃ pos, find c s = some pos := by
  cases hf : find c s with
  | some pos => exact ⟨pos, rfl⟩
  | none =>
    exfalso
    induction s with
    | nil => simp at h
    | cons x xs ih =>
      by_cases hx : x = c
      · simp [find, hx] at hf
      · simp [find, hx] at hf
        rcases List.mem_cons.1 h with e | e
        · exact hx e.symm
        · exact ih e hf

/-! ## Lemmas on maps -/

theorem strLt_irrefl (a : Str) : strLt a a = false := by
  induction a with
  | nil => rfl
  | cons x xs ih => simp [strLt, ih]

theorem strLt_trans (a b c : Str) (hab : strLt a b = true) (hbc : strLt b c = true) :
    strLt a c = true := by
  induction a generalizing b c with
  | nil =>
    cases b with
    | nil => simp [strLt] at hab
    | cons y ys =>
      cases c with
      | nil => simp [strLt] at hbc
      | cons z zs => simp [strLt]
  | cons x xs ih =>
    cases b with
    | nil => simp [strLt] at hab
    | cons y ys =>
      cases c with
      | nil => simp [strLt] at hbc
      | cons z zs =>
        simp only [strLt, Bool.or_eq_true, decide_eq_true_eq, Bool.and_eq_true] at hab hbc ⊢
        rcases hab with h1 | ⟨h1, h1'⟩
        · rcases hbc with h2 | ⟨h2, _⟩
          · exact Or.inl (lt_trans h1 h2)
          · subst h2; exact Or.inl h1
        · subst h1
          rcases hbc with h2 | ⟨h2, h2'⟩
          · exact Or.inl h2
          · exact Or.inr ⟨h2, ih ys zs h1' h2'⟩

theorem char_eq_of_toNat_eq (a b : Char) (h : a.toNat = b.toNat) : a = b := by
  apply Char.ext
  apply UInt32.ext
  exact h

theorem strLt_total (a b : Str) (hne : a ≠ b) (h : strLt a b = false) : strLt b a = true := by
  induction a generalizing b with
  | nil =>
    cases b with
    | nil => exact absurd rfl hne
    | cons y ys => simp [strLt] at h
  | cons x xs ih =>
    cases b with
    | nil => simp [strLt]
    | cons y ys =>
      simp only [strLt, Bool.or_eq_false_iff, decide_eq_false_iff_not, not_lt,
        Bool.and_eq_false_imp, decide_eq_true_eq] at h
      simp only [strLt, Bool.or_eq_true, decide_eq_true_eq, Bool.and_eq_true]
      rcases Nat.lt_or_ge y.toNat x.toNat with hlt | hge
      · exact Or.inl hlt
      · have hxy : x = y := char_eq_of_toNat_eq x y (le_antisymm hge h.1)
        subst hxy
        refine Or.inr ⟨rfl, ih ys ?_ (h.2 rfl)⟩
        intro e; exact hne (by rw [e])

theorem Dict.get_set_self {T : Type} (k : Str) (v : T) (m : Dict T) :
    Dict.get k (Dict.set k v m) = some v := by
  induction m with
  | nil => simp [Dict.set, Dict.get]
  | cons e rest ih =>
    obtain ⟨k', v'⟩ := e
    unfold Dict.set
    split
    · simp [Dict.get]
    · split
      · simp [Dict.get]
      · rename_i hne _
        simp [Dict.get, hne, ih]

theorem Dict.get_set_of_ne {T : Type} (j k : Str) (v : T) (m : Dict T) (h : j ≠ k) :
    Dict.get j (Dict.set k v m) = Dict.get j m := by
  induction m with
  | nil => simp [Dict.set, Dict.get, h]
  | cons e rest ih =>
    obtain ⟨k', v'⟩ := e
    unfold Dict.set
    split
    · rename_i hk
      subst hk
      simp [Dict.get, h]
    · split
      · simp [Dict.get, h]
      · by_cases hj : j = k'
        · simp [Dict.get, hj]
        · simp [Dict.get, hj, ih]

theorem Dict.mem_set {T : Type} (k : Str) (v : T) (m : Dict T) (e : Str × T)
    (he : e ∈ Dict.set k v m) : e = (k, v) ∨ e ∈ m := by
  induction m with
  | nil => simpa [Dict.set] using he
  | cons x rest ih =>
    obtain ⟨k', v'⟩ := x
    unfold Dict.set at he
    split at he
    · rcases List.mem_cons.1 he with h | h
      · exact Or.inl h
      · exact Or.inr (List.mem_cons_of_mem _ h)
    · split at he
      · rcases List.mem_cons.1 he with h | h
        · exact Or.inl h
        · exact Or.inr h
      · rcases List.mem_cons.1 he with h | h
        · exact Or.inr (by simp [h])
        · rcases ih h with h' | h'
          · exact Or.inl h'
          · exact Or.inr (List.mem_cons_of_mem _ h')

theorem Dict.set_sorted {T : Type} (k : Str) (v : T) (m : Dict T) (hm : Dict.Sorted m) :
    Dict.Sorted (Dict.set k v m) := by
  induction m with
  | nil => simp [Dict.set, Dict.Sorted]
  | cons x rest ih =>
    obtain ⟨k', v'⟩ := x
    unfold Dict.Sorted at hm ih ⊢
    rw [List.pairwise_cons] at hm
    unfold Dict.set
    split
    · rename_i hk
      subst hk
      rw [List.pairwise_cons]
      exact hm
    · split
      · rename_i hlt
        rw [List.pairwise_cons, List.pairwise_cons]
        refine ⟨?_, hm⟩
        intro e he
        rcases List.mem_cons.1 he with h | h
        · subst h; exact hlt
        · exact strLt_trans _ _ _ hlt (hm.1 e h)
      · rename_i hne hlt
        rw [List.pairwise_cons]
        refine ⟨?_, ih hm.2⟩
        intro e he
        rcases Dict.mem_set k v rest e he with h | h
        · subst h
          exact strLt_total k k' hne (by simpa using hlt)
        · exact hm.1 e h

theorem Dict.set_of_all_lt {T : Type} (k : Str) (v : T) (m : Dict T)
    (h : ∀ e ∈ m, strLt e.1 k = true) : Dict.set k v m = m ++ [(k, v)] := by
  induction m with
  | nil => rfl
  | cons x rest ih =>
    obtain ⟨k', v'⟩ := x
    have hk' : strLt k' k = true := h (k', v') (by simp)
    have hne : k ≠ k' := by
      intro e; subst e; rw [strLt_irrefl] at hk'; exact absurd hk' (by simp)
    have hnlt : strLt k k' = false := by
      cases hh : strLt k k' with
      | false => rfl
      | true =>
        have := strLt_trans k k' k hh hk'
        rw [strLt_irrefl] at this; exact absurd this (by simp)
    have := ih (fun e he => h e (List.mem_cons_of_mem _ he))
    simp [Dict.set, hne, hnlt, this]

theorem Dict.foldl_set_sorted {T : Type} (m1 m2 : Dict T) (h : Dict.Sorted (m1 ++ m2)) :
    m2.foldl (fun d kv => Dict.set kv.1 kv.2 d) m1 = m1 ++ m2 := by
  induction m2 generalizing m1 with
  | nil => simp
  | cons x rest ih =>
    obtain ⟨k, v⟩ := x
    have hlt : ∀ e ∈ m1, strLt e.1 k = true := by
      intro e he
      unfold Dict.Sorted at h
      rw [List.pairwise_append] at h
      exact h.2.2 e he (k, v) (by simp)
    simp only [List.foldl_cons]
    rw [Dict.set_of_all_lt k v m1 hlt]
    have h' : Dict.Sorted ((m1 ++ [(k, v)]) ++ rest) := by
      simpa using h
    simpa using ih (m1 ++ [(k, v)]) h'

/-! ## Lemmas on the keyed parser -/

theorem scanLine_slaveMap (st : ScanState) (line : Str) :
    (scanLine st line).slaveMap = st.slaveMap ++ (slaveOfLine line).toList := by
  unfold scanLine slaveOfLine
  split
  · simp
  · dsimp only
    split
    · simp
    · split <;> simp

theorem scanLine_info (st : ScanState) (line : Str) :
    (scanLine st line).info = infoOfLine st.info line := by
  unfold scanLine infoOfLine
  split
  · rfl
  · dsimp only
    split
    · rfl
    · split <;> rfl

theorem foldl_scanLine_slaveMap (ls : List Str) (st : ScanState) :
    (ls.foldl scanLine st).slaveMap = st.slaveMap ++ ls.filterMap slaveOfLine := by
  induction ls generalizing st with
  | nil => simp
  | cons l ls ih =>
    rw [List.foldl_cons, ih, scanLine_slaveMap]
    cases h : slaveOfLine l <;> simp [List.filterMap_cons, h]

theorem foldl_scanLine_info (ls : List Str) (st : ScanState) :
    (ls.foldl scanLine st).info = ls.foldl infoOfLine st.info := by
  induction ls generalizing st with
  | nil => simp
  | cons l ls ih => rw [List.foldl_cons, ih, scanLine_info, List.foldl_cons]

theorem scanText_slaveMap (text : Str) :
    (scanText text).slaveMap = (getlines '\n' text).filterMap slaveOfLine := by
  unfold scanText
  rw [foldl_scanLine_slaveMap]
  rfl

theorem scanText_info (text : Str) :
    (scanText text).info = (getlines '\n' text).foldl infoOfLine [] := by
  unfold scanText
  rw [foldl_scanLine_info]

theorem slaveKvs_sorted (value : Str) : Dict.Sorted (slaveKvs value) := by
  unfold slaveKvs
  generalize getlines ',' value = ps
  have key : ∀ (m : Dict Str), Dict.Sorted m →
      Dict.Sorted (ps.foldl
        (fun slave kvPair =>
          match find '=' kvPair with
          | none => slave
          | some kvPos =>
            Dict.set (substrTo kvPair kvPos) (substrFrom kvPair (kvPos + 1)) slave) m) := by
    induction ps with
    | nil => intro m hm; simpa using hm
    | cons p ps ih =>
      intro m hm
      rw [List.foldl_cons]
      apply ih
      split
      · exact hm
      · exact Dict.set_sorted _ _ _ hm
  exact key [] (by simp [Dict.Sorted])

theorem slaveToJson_fold_object (ms rest : Dict Str) :
    rest.foldl
      (fun j kv =>
        match j with
        | SlaveJson.null => SlaveJson.object (Dict.set kv.1 kv.2 [])
        | SlaveJson.object ms => SlaveJson.object (Dict.set kv.1 kv.2 ms))
      (SlaveJson.object ms)
    = SlaveJson.object (rest.foldl (fun d kv => Dict.set kv.1 kv.2 d) ms) := by
  induction rest generalizing ms with
  | nil => rfl
  | cons kv rest ih => simp only [List.foldl_cons]; rw [ih]

theorem slaveToJson_of_sorted (m : Dict Str) (h : Dict.Sorted m) (hne : m ≠ []) :
    slaveToJson m = SlaveJson.object m := by
  cases m with
  | nil => exact absurd rfl hne
  | cons kv rest =>
    unfold slaveToJson
    simp only [List.foldl_cons]
    rw [slaveToJson_fold_object]
    have := Dict.foldl_set_sorted [kv] rest (by simpa using h)
    simp only [Dict.set]
    rw [this]
    rfl

theorem memberAsString_slaveToJson (m : Dict Str) (h : Dict.Sorted m) (key : Str) :
    memberAsString (slaveToJson m) key = (Dict.get key m).getD [] := by
  cases m with
  | nil => simp [slaveToJson, memberAsString, Dict.get]
  | cons kv rest =>
    rw [slaveToJson_of_sorted _ h (by simp)]
    rfl

theorem convertSlaves_eq_none_of_mem (js : List SlaveJson) (j : SlaveJson) (hj : j ∈ js)
    (hbad : toInfoSlave j = none) : convertSlaves js = none := by
  induction js with
  | nil => simp at hj
  | cons x xs ih =>
    unfold convertSlaves
    rcases List.mem_cons.1 hj with h | h
    · subst h; rw [hbad]
    · cases hx : toInfoSlave x with
      | none => rfl
      | some sx => simp only []; rw [ih h]

theorem convertSlaves_of_all_some (js : List SlaveJson)
    (h : ∀ j ∈ js, toInfoSlave j ≠ none) :
    ∃ ss, convertSlaves js = some ss ∧ js.map toInfoSlave = ss.map some := by
  induction js with
  | nil => exact ⟨[], rfl, rfl⟩
  | cons x xs ih =>
    obtain ⟨ss, hss, hmap⟩ := ih (fun j hj => h j (List.mem_cons_of_mem _ hj))
    cases hx : toInfoSlave x with
    | none => exact absurd hx (h x (by simp))
    | some sx =>
      refine ⟨sx :: ss, ?_, ?_⟩
      · unfold convertSlaves; rw [hx]; simp only []; rw [hss]
      · simp [hx, hmap]

theorem buildSlaves_eq (slaveMap : List (Dict Str)) :
    buildSlaves slaveMap = convertSlaves (slaveMap.map slaveToJson) := by
  cases slaveMap with
  | nil => rfl
  | cons m ms => rfl

/-! ## Lemmas on the decimal conversions -/

theorem digitsValue_append (acc : Nat) (l1 l2 : Str) :
    digitsValue acc (l1 ++ l2) = digitsValue (digitsValue acc l1) l2 := by
  simp [digitsValue]

theorem digitChar_isDigit (m : Nat) (h : m < 10) :
    isDigit (Nat.digitChar m) = true ∧ (Nat.digitChar m).toNat - '0'.toNat = m := by
  interval_cases m <;> exact ⟨by decide, by decide⟩

theorem toDigitsCore_spec (fuel n : Nat) (ds : Str) (h : n < fuel) :
    ∃ pre, Nat.toDigitsCore 10 fuel n ds = pre ++ ds ∧ pre ≠ [] ∧
      (∀ c ∈ pre, isDigit c = true) ∧ digitsValue 0 pre = n := by
  induction fuel generalizing n ds with
  | zero => omega
  | succ fuel ih =>
    have hd := digitChar_isDigit (n % 10) (Nat.mod_lt _ (by decide))
    unfold Nat.toDigitsCore
    by_cases h0 : n / 10 = 0
    · refine ⟨[Nat.digitChar (n % 10)], by simp [h0], by simp, by simpa using hd.1, ?_⟩
      simp only [digitsValue, List.foldl_cons, List.foldl_nil, hd.2]
      omega
    · have hlt : n / 10 < fuel := by omega
      obtain ⟨pre, hpre, hne, hdig, hval⟩ := ih (n / 10) (Nat.digitChar (n % 10) :: ds) hlt
      refine ⟨pre ++ [Nat.digitChar (n % 10)], by simp [h0, hpre], by simp, ?_, ?_⟩
      · intro c hc
        rcases List.mem_append.1 hc with hc | hc
        · exact hdig c hc
        · simp at hc; subst hc; exact hd.1
      · rw [digitsValue_append, hval]
        simp only [digitsValue, List.foldl_cons, List.foldl_nil, hd.2]
        omega

theorem toDigits_spec (n : Nat) :
    Nat.toDigits 10 n ≠ [] ∧ (∀ c ∈ Nat.toDigits 10 n, isDigit c = true) ∧
      digitsValue 0 (Nat.toDigits 10 n) = n := by
  obtain ⟨pre, hpre, hne, hdig, hval⟩ := toDigitsCore_spec (n + 1) n [] (by omega)
  have : Nat.toDigits 10 n = pre := by simpa [Nat.toDigits] using hpre
  rw [this]
  exact ⟨hne, hdig, hval⟩

theorem takeWhile_append_stop (p : Char → Bool) (d r : Str) (hd : ∀ c ∈ d, p c = true)
    (hr : ∀ c ∈ r.head?, p c = false) : (d ++ r).takeWhile p = d := by
  induction d with
  | nil =>
    cases r with
    | nil => rfl
    | cons c cs => simp [List.takeWhile, hr c (by simp)]
  | cons c cs ih =>
    have := ih (fun x hx => hd x (List.mem_cons_of_mem _ hx))
    simp [List.takeWhile, hd c (by simp), this]

theorem isDigit_not_space (c : Char) (h : isDigit c = true) :
    isSpace c = false ∧ c ≠ '-' ∧ c ≠ '+' ∧ c ≠ ',' ∧ c ≠ '\n' ∧ c ≠ ':' := by
  simp only [isDigit, Bool.and_eq_true, decide_eq_true_eq] at h
  refine ⟨?_, ?_, ?_, ?_, ?_, ?_⟩
  · simp only [isSpace, Bool.or_eq_false_iff, decide_eq_false_iff_not]
    refine ⟨⟨⟨⟨⟨?_, ?_⟩, ?_⟩, ?_⟩, ?_⟩, ?_⟩ <;>
    · intro e; subst e; revert h; decide
  all_goals
    intro e; subst e; revert h; decide

theorem stoi_to_string (n : Int) (r : Str) (hn : -2147483648 ≤ n ∧ n ≤ 2147483647)
    (hr : ∀ c ∈ r.head?, isDigit c = false) : stoi (to_string n ++ r) = some n := by
  obtain ⟨hne, hdig, hval⟩ := toDigits_spec n.natAbs
  obtain ⟨d0, drest, hD⟩ := List.exists_cons_of_ne_nil hne
  have hd0 := isDigit_not_space d0 (hdig d0 (by rw [hD]; simp))
  have htake : (Nat.toDigits 10 n.natAbs ++ r).takeWhile isDigit = Nat.toDigits 10 n.natAbs :=
    takeWhile_append_stop isDigit _ r hdig hr
  by_cases hneg : n < 0
  · have hts : to_string n = '-' :: Nat.toDigits 10 n.natAbs := by simp [to_string, hneg]
    have hsp : isSpace '-' = false := by decide
    unfold stoi
    simp only [hts, List.cons_append, List.dropWhile_cons, hsp, Bool.false_eq_true, if_false,
      List.head?_cons, beq_self_eq_true, Bool.true_or, if_true, List.tail_cons, htake]
    have hemp : (Nat.toDigits 10 n.natAbs).isEmpty = false := by
      rw [hD]; rfl
    simp only [hemp, Bool.false_eq_true, if_false, if_true, hval]
    have hnat : -((n.natAbs : Nat) : Int) = n := by omega
    rw [hnat]
    simp [hn]
  · have hts : to_string n = Nat.toDigits 10 n.natAbs := by simp [to_string, hneg]
    unfold stoi
    have hdw : (Nat.toDigits 10 n.natAbs ++ r).dropWhile isSpace
        = Nat.toDigits 10 n.natAbs ++ r := by
      rw [hD]; simp [List.dropWhile, hd0.1]
    rw [hts]
    simp only [hdw]
    have hhead : (Nat.toDigits 10 n.natAbs ++ r).head? = some d0 := by rw [hD]; rfl
    have h1 : (some d0 == some '-') = false := by simpa using hd0.2.1
    have h2 : (some d0 == some '+') = false := by simpa using hd0.2.2.1
    simp only [hhead, h1, h2, Bool.or_self, Bool.false_eq_true, if_false, htake]
    have hemp : (Nat.toDigits 10 n.natAbs).isEmpty = false := by
      rw [hD]; rfl
    simp only [hemp, Bool.false_eq_true, if_false, hval]
    have hnat : ((n.natAbs : Nat) : Int) = n := by omega
    rw [hnat]
    simp [hn]

theorem to_string_chars (n : Int) (c : Char) (hc : c ∈ to_string n) :
    c = '-' ∨ isDigit c = true := by
  obtain ⟨_, hdig, _⟩ := toDigits_spec n.natAbs
  unfold to_string at hc
  split at hc
  · rcases List.mem_cons.1 hc with h | h
    · exact Or.inl h
    · exact Or.inr (hdig c h)
  · exact Or.inr (hdig c hc)

/-! ## The three routes of a line -/

theorem take_drop_at_colon (c : Char) (key value : Str) :
    substrTo (key ++ c :: value) key.length = key ∧
      substrFrom (key ++ c :: value) (key.length + 1) = value := by
  constructor
  · simp [substrTo]
  · simp [substrFrom]

theorem scanLine_plain (st : ScanState) (key value : Str) (h1 : ':' ∉ key)
    (h3 : matchSlavePattern (trimKey key) = false)
    (h4 : findAtZero "db0".toList (trimKey key) = false) :
    scanLine st (key ++ ':' :: value) =
      { st with info := Dict.set (trimKey key) value st.info } := by
  unfold scanLine
  rw [find_append_cons ':' key value h1]
  simp only [(take_drop_at_colon ':' key value).1, (take_drop_at_colon ':' key value).2, h3, h4,
    Bool.false_eq_true, if_false]

theorem scanLine_slave (st : ScanState) (key value : Str) (h1 : ':' ∉ key)
    (h3 : matchSlavePattern (trimKey key) = true) :
    scanLine st (key ++ ':' :: value) =
      { st with slaveMap := st.slaveMap ++ [slaveKvs value] } := by
  unfold scanLine
  rw [find_append_cons ':' key value h1]
  simp only [(take_drop_at_colon ':' key value).1, (take_drop_at_colon ':' key value).2, h3,
    if_true]

theorem scanLine_db0 (st : ScanState) (key value : Str) (h1 : ':' ∉ key)
    (h3 : matchSlavePattern (trimKey key) = false)
    (h4 : findAtZero "db0".toList (trimKey key) = true) :
    scanLine st (key ++ ':' :: value) = { st with info := dbKvs value st.info } := by
  unfold scanLine
  rw [find_append_cons ':' key value h1]
  simp only [(take_drop_at_colon ':' key value).1, (take_drop_at_colon ':' key value).2, h3, h4,
    Bool.false_eq_true, if_false, if_true]

theorem scanLine_no_colon (st : ScanState) (line : Str) (h : ':' ∉ line) :
    scanLine st line = st := by
  unfold scanLine
  rw [find_eq_none ':' line h]

theorem slaveOfLine_slave (key value : Str) (h1 : ':' ∉ key)
    (h3 : matchSlavePattern (trimKey key) = true) :
    slaveOfLine (key ++ ':' :: value) = some (slaveKvs value) := by
  unfold slaveOfLine
  rw [find_append_cons ':' key value h1]
  simp only [(take_drop_at_colon ':' key value).1, (take_drop_at_colon ':' key value).2, h3,
    if_true]

theorem dropWhile_of_head (p : Char → Bool) (s : Str) (h : ∀ c ∈ s.head?, p c = false) :
    s.dropWhile p = s := by
  cases s with
  | nil => rfl
  | cons c cs => simp [List.dropWhile, h c (by simp)]

theorem trimKey_eq_self (s : Str) (h1 : ∀ c ∈ s.head?, isSpace c = false)
    (h2 : ∀ c ∈ s.getLast?, isSpace c = false) : trimKey s = s := by
  unfold trimKey
  rw [dropWhile_of_head isSpace s h1, dropWhile_of_head isSpace s.reverse (by simpa using h2)]
  simp

theorem dbKvs_get_other (value : Str) (info : Dict Str) (k : Str)
    (h1 : k ≠ "binlog_file_num".toList) (h2 : k ≠ "binlog_offset".toList) :
    Dict.get k (dbKvs value info) = Dict.get k info := by
  unfold dbKvs
  generalize getlines ',' value = ps
  induction ps generalizing info with
  | nil => rfl
  | cons p ps ih =>
    rw [List.foldl_cons, ih]
    split
    · rfl
    · dsimp only
      split
      · split
        · rfl
        · rw [Dict.get_set_of_ne _ _ _ _ h2, Dict.get_set_of_ne _ _ _ _ h1]
      · rfl

theorem dbKvs_sorted (value : Str) (info : Dict Str) (h : Dict.Sorted info) :
    Dict.Sorted (dbKvs value info) := by
  unfold dbKvs
  generalize getlines ',' value = ps
  induction ps generalizing info with
  | nil => simpa using h
  | cons p ps ih =>
    rw [List.foldl_cons]
    apply ih
    split
    · exact h
    · dsimp only
      split
      · split
        · exact h
        · exact Dict.set_sorted _ _ _ (Dict.set_sorted _ _ _ h)
      · exact h

/-! ## A slave line in canonical form -/

theorem slaveKvs_canonical (ip P S O : Str) (hip : ',' ∉ ip) (hP : ',' ∉ P) (hS : ',' ∉ S)
    (hO : ',' ∉ O) :
    slaveKvs ("ip".toList ++ '=' :: ip ++ ',' :: ("port".toList ++ '=' :: P ++
      ',' :: ("state".toList ++ '=' :: S ++ ',' :: ("offset".toList ++ '=' :: O))))
    = [("ip".toList, ip), ("offset".toList, O), ("port".toList, P), ("state".toList, S)] := by
  have h1 : ',' ∉ "ip".toList ++ '=' :: ip := by simp [hip]
  have h2 : ',' ∉ "port".toList ++ '=' :: P := by simp [hP]
  have h3 : ',' ∉ "state".toList ++ '=' :: S := by simp [hS]
  have h4 : ',' ∉ "offset".toList ++ '=' :: O := by simp [hO]
  have hl : getlines ','
      ("ip".toList ++ '=' :: ip ++ ',' :: ("port".toList ++ '=' :: P ++
        ',' :: ("state".toList ++ '=' :: S ++ ',' :: ("offset".toList ++ '=' :: O))))
      = ["ip".toList ++ '=' :: ip, "port".toList ++ '=' :: P, "state".toList ++ '=' :: S,
          "offset".toList ++ '=' :: O] := by
    rw [getlines_line_delim _ _ _ h1, getlines_line_delim _ _ _ h2,
      getlines_line_delim _ _ _ h3, getlines_of_not_mem _ _ h4 (by simp)]
  unfold slaveKvs
  rw [hl]
  simp only [List.foldl_cons, List.foldl_nil]
  rw [find_append_cons '=' "ip".toList ip (by decide),
    find_append_cons '=' "port".toList P (by decide),
    find_append_cons '=' "state".toList S (by decide),
    find_append_cons '=' "offset".toList O (by decide)]
  simp only [(take_drop_at_colon '=' _ _).1, (take_drop_at_colon '=' _ _).2]
  have e1 : Dict.set "port".toList P [("ip".toList, ip)]
      = [("ip".toList, ip), ("port".toList, P)] := by
    simp [Dict.set, strLt]
  have e2 : Dict.set "state".toList S [("ip".toList, ip), ("port".toList, P)]
      = [("ip".toList, ip), ("port".toList, P), ("state".toList, S)] := by
    simp [Dict.set, strLt]
  have e3 : Dict.set "offset".toList O [("ip".toList, ip), ("port".toList, P), ("state".toList, S)]
      = [("ip".toList, ip), ("offset".toList, O), ("port".toList, P), ("state".toList, S)] := by
    simp [Dict.set, strLt]
  show Dict.set "offset".toList O (Dict.set "state".toList S (Dict.set "port".toList P
    (Dict.set "ip".toList ip []))) = _
  rw [show Dict.set "ip".toList ip [] = [("ip".toList, ip)] from rfl, e1, e2, e3]

theorem toInfoSlave_canonical (ip P S O : Str) (port state offset : Int)
    (hP : stoi P = some port) (hS : stoi S = some state) (hO : stoi O = some offset) :
    toInfoSlave (slaveToJson
      [("ip".toList, ip), ("offset".toList, O), ("port".toList, P), ("state".toList, S)])
    = some { ip := ip, port := port, state := state, offset := offset } := by
  have hj : slaveToJson
      [("ip".toList, ip), ("offset".toList, O), ("port".toList, P), ("state".toList, S)]
      = SlaveJson.object
        [("ip".toList, ip), ("offset".toList, O), ("port".toList, P), ("state".toList, S)] := by
    simp [slaveToJson, Dict.set, strLt]
  rw [hj]
  have g1 : memberAsString (SlaveJson.object
      [("ip".toList, ip), ("offset".toList, O), ("port".toList, P), ("state".toList, S)])
      "port".toList = P := by simp [memberAsString, Dict.get]
  have g2 : memberAsString (SlaveJson.object
      [("ip".toList, ip), ("offset".toList, O), ("port".toList, P), ("state".toList, S)])
      "state".toList = S := by simp [memberAsString, Dict.get]
  have g3 : memberAsString (SlaveJson.object
      [("ip".toList, ip), ("offset".toList, O), ("port".toList, P), ("state".toList, S)])
      "offset".toList = O := by simp [memberAsString, Dict.get]
  have g4 : memberAsString (SlaveJson.object
      [("ip".toList, ip), ("offset".toList, O), ("port".toList, P), ("state".toList, S)])
      "ip".toList = ip := by simp [memberAsString, Dict.get]
  unfold toInfoSlave
  rw [g1, g2, g3, g4, hP, hS, hO]

/-! ## Claim C1 -/

/-- C1, the claim as stated fails: on the text of the example the value stored
under `role` is not `master`; the carriage return before the line feed stays in
it. -/
theorem C1_example_value_keeps_carriage_return :
    parseInfoReplication
        "role:master\r\nslave0:ip=127.0.0.1,port=6380,state=1,offset=100\r\n".toList
      ≠ some { info := [("role".toList, "master".toList)],
               slaves := [{ ip := "127.0.0.1".toList, port := 6380, state := 1, offset := 100 }] }
    ∧ parseInfoReplication
        "role:master\r\nslave0:ip=127.0.0.1,port=6380,state=1,offset=100\r\n".toList
      = some { info := [("role".toList, "master\r".toList)],
               slaves := [{ ip := "127.0.0.1".toList, port := 6380, state := 1, offset := 100 }] } := by
  decide

theorem to_string_no_comma_newline (n : Int) : ',' ∉ to_string n ∧ '\n' ∉ to_string n := by
  constructor
  · intro h
    rcases to_string_chars n _ h with e | e
    · exact absurd e (by decide)
    · exact absurd e (by decide)
  · intro h
    rcases to_string_chars n _ h with e | e
    · exact absurd e (by decide)
    · exact absurd e (by decide)

theorem keyedSlaveLine_scan (st : ScanState) (digits ip : Str) (port state offset : Int)
    (hd1 : digits ≠ []) (hd2 : digits.all isDigit = true)
    (hip1 : ',' ∉ ip) (hip2 : '\n' ∉ ip) :
    '\n' ∉ keyedSlaveLine digits ip port state offset ++ ['\r'] ∧
    scanLine st (keyedSlaveLine digits ip port state offset ++ ['\r']) =
      { st with slaveMap := st.slaveMap ++
          [[("ip".toList, ip), ("offset".toList, to_string offset ++ ['\r']),
            ("port".toList, to_string port), ("state".toList, to_string state)]] } := by
  have hdig : ∀ c ∈ digits, isDigit c = true := by
    intro c hc
    exact List.all_eq_true.1 hd2 c hc
  have hdc : ':' ∉ digits := fun h => (isDigit_not_space _ (hdig _ h)).2.2.2.2.2 rfl
  have hdn : '\n' ∉ digits := fun h => (isDigit_not_space _ (hdig _ h)).2.2.2.2.1 rfl
  have hline : keyedSlaveLine digits ip port state offset ++ ['\r']
      = ("slave".toList ++ digits) ++ ':' ::
          ("ip".toList ++ '=' :: ip ++ ',' :: ("port".toList ++ '=' :: to_string port ++
            ',' :: ("state".toList ++ '=' :: to_string state ++
            ',' :: ("offset".toList ++ '=' :: (to_string offset ++ ['\r']))))) := by
    simp [keyedSlaveLine, String.toList, List.append_assoc]
  have hkey : trimKey ("slave".toList ++ digits) = "slave".toList ++ digits := by
    apply trimKey_eq_self
    · intro c hc
      have : c = 's' := by simpa [String.toList] using hc.symm
      subst this; decide
    · intro c hc
      rw [List.getLast?_append_of_ne_nil _ hd1] at hc
      exact (isDigit_not_space c (hdig c (List.mem_of_mem_getLast? hc))).1
  have hpat : matchSlavePattern (trimKey ("slave".toList ++ digits)) = true := by
    rw [hkey]
    have hdrop : ("slave".toList ++ digits).drop 5 = digits := by
      simp [String.toList]
    have hpre : "slave".toList.isPrefixOf ("slave".toList ++ digits) = true := by
      simp [String.toList]
    unfold matchSlavePattern
    rw [hdrop, hpre, hd2]
    cases digits with
    | nil => exact absurd rfl hd1
    | cons d ds => rfl
  have hcolon : ':' ∉ "slave".toList ++ digits := by
    simp [String.toList, hdc]
  have hco : ',' ∉ to_string offset ++ ['\r'] := by
    simp [(to_string_no_comma_newline offset).1]
  rw [hline]
  constructor
  · simp [hdn, hip2, (to_string_no_comma_newline port).2, (to_string_no_comma_newline state).2,
      (to_string_no_comma_newline offset).2]
  · rw [scanLine_slave _ _ _ hcolon hpat,
      slaveKvs_canonical ip _ _ _ hip1 (to_string_no_comma_newline port).1
        (to_string_no_comma_newline state).1 hco]

/-- C1 (amended): for a text of two CRLF-terminated lines, in either order, a
plain `key:value` line (key without `:`, not matching `slave<digits>`, not
starting with `db0`) and a keyed slave line
`slave<digits>:ip=..,port=..,state=..,offset=..` whose numeric fields are the
decimal renderings of three `int` values, the parser returns the info map with
the one entry: trimmed key, and the value followed by the carriage return of
the terminator; and the slaves sequence with the one descriptor holding the ip
and the three integers. -/
theorem parse_plain_line_and_slave_line (key value digits ip : Str) (port state offset : Int)
    (hk1 : ':' ∉ key) (hk2 : '\n' ∉ key)
    (hk3 : matchSlavePattern (trimKey key) = false)
    (hk4 : findAtZero "db0".toList (trimKey key) = false)
    (hv : '\n' ∉ value)
    (hd1 : digits ≠ []) (hd2 : digits.all isDigit = true)
    (hip1 : ',' ∉ ip) (hip2 : '\n' ∉ ip)
    (hport : -2147483648 ≤ port ∧ port ≤ 2147483647)
    (hstate : -2147483648 ≤ state ∧ state ≤ 2147483647)
    (hoffset : -2147483648 ≤ offset ∧ offset ≤ 2147483647) :
    parseInfoReplication
      (key ++ ':' :: value ++ "\r\n".toList ++
        (keyedSlaveLine digits ip port state offset ++ "\r\n".toList))
    = some { info := [(trimKey key, value ++ ['\r'])],
             slaves := [{ ip := ip, port := port, state := state, offset := offset }] } ∧
    parseInfoReplication
      (keyedSlaveLine digits ip port state offset ++ "\r\n".toList ++
        (key ++ ':' :: value ++ "\r\n".toList))
    = some { info := [(trimKey key, value ++ ['\r'])],
             slaves := [{ ip := ip, port := port, state := state, offset := offset }] } := by
  have hn1 : '\n' ∉ key ++ ':' :: (value ++ ['\r']) := by
    simp [hk2, hv]
  have hP := stoi_to_string port [] hport (by simp)
  have hS := stoi_to_string state [] hstate (by simp)
  have hO := stoi_to_string offset ['\r'] hoffset (by simp; decide)
  rw [List.append_nil] at hP hS
  have hconv := toInfoSlave_canonical ip _ _ _ port state offset hP hS hO
  constructor
  · obtain ⟨hn2, hscan⟩ := keyedSlaveLine_scan
      { info := Dict.set (trimKey key) (value ++ ['\r']) [], slaveMap := [] }
      digits ip port state offset hd1 hd2 hip1 hip2
    have htext : key ++ ':' :: value ++ "\r\n".toList ++
          (keyedSlaveLine digits ip port state offset ++ "\r\n".toList)
        = (key ++ ':' :: (value ++ ['\r'])) ++ '\n' ::
            ((keyedSlaveLine digits ip port state offset ++ ['\r']) ++ '\n' :: []) := by
      simp [String.toList, List.append_assoc]
    unfold parseInfoReplication scanText
    rw [htext, getlines_line_delim '\n' _ _ hn1, getlines_line_delim '\n' _ [] hn2,
      show getlines '\n' [] = [] from rfl]
    simp only [List.foldl_cons, List.foldl_nil]
    rw [scanLine_plain _ key _ hk1 hk3 hk4, hscan]
    simp only [List.nil_append, buildSlaves_eq, List.map_cons, List.map_nil, convertSlaves,
      hconv, Dict.set]
  · obtain ⟨hn2, hscan⟩ := keyedSlaveLine_scan { info := [], slaveMap := [] }
      digits ip port state offset hd1 hd2 hip1 hip2
    have htext : keyedSlaveLine digits ip port state offset ++ "\r\n".toList ++
          (key ++ ':' :: value ++ "\r\n".toList)
        = (keyedSlaveLine digits ip port state offset ++ ['\r']) ++ '\n' ::
            ((key ++ ':' :: (value ++ ['\r'])) ++ '\n' :: []) := by
      simp [String.toList, List.append_assoc]
    unfold parseInfoReplication scanText
    rw [htext, getlines_line_delim '\n' _ _ hn2, getlines_line_delim '\n' _ [] hn1,
      show getlines '\n' [] = [] from rfl]
    simp only [List.foldl_cons, List.foldl_nil]
    rw [hscan, scanLine_plain _ key _ hk1 hk3 hk4]
    simp only [List.nil_append, buildSlaves_eq, List.map_cons, List.map_nil, convertSlaves,
      hconv, Dict.set]

/-- C1 (amended), at the text of the example: key `role`, value `master`, slave
`slave0` at `127.0.0.1`, port 6380, state 1, offset 100. -/
theorem parse_plain_line_and_slave_line_witness :
    (':' ∉ "role".toList ∧ matchSlavePattern (trimKey "role".toList) = false ∧
      findAtZero "db0".toList (trimKey "role".toList) = false) ∧
    parseInfoReplication
      ("role".toList ++ ':' :: "master".toList ++ "\r\n".toList ++
        (keyedSlaveLine "0".toList "127.0.0.1".toList 6380 1 100 ++ "\r\n".toList))
    = some { info := [(trimKey "role".toList, "master".toList ++ ['\r'])],
             slaves := [{ ip := "127.0.0.1".toList, port := 6380, state := 1, offset := 100 }] } ∧
    keyedSlaveLine "0".toList "127.0.0.1".toList 6380 1 100
      = "slave0:ip=127.0.0.1,port=6380,state=1,offset=100".toList :=
  ⟨by decide,
    (parse_plain_line_and_slave_line "role".toList "master".toList "0".toList
      "127.0.0.1".toList 6380 1 100 (by decide) (by decide) (by decide) (by decide) (by decide)
      (by decide) (by decide) (by decide) (by decide) (by decide) (by decide) (by decide)).1,
    by decide⟩

/-! ## Claim C2 -/

/-- C2, the claim as stated fails: on the text of the example the parser does not
return; the conversion of `abc` raises and nothing catches it. -/
theorem C2_example_raises :
    parseInfoReplication "slave0:ip=1.2.3.4,port=abc,state=1,offset=5".toList = none := by
  decide

/-- C2 (amended): when a text has a slave line (a line whose key, the part before
the first `:`, trimmed, matches `slave<digits>`) in which the subvalue of `port`,
`state` or `offset` (empty when the subkey is absent) does not begin with an
integer that `std::stoi` accepts, the parser raises: it returns no status at
all, whatever the other lines are. -/
theorem parse_raises_on_non_integer_slave_field (text key value : Str)
    (hline : key ++ ':' :: value ∈ getlines '\n' text)
    (hcolon : ':' ∉ key)
    (hkey : matchSlavePattern (trimKey key) = true)
    (hbad : stoi ((Dict.get "port".toList (slaveKvs value)).getD []) = none ∨
      stoi ((Dict.get "state".toList (slaveKvs value)).getD []) = none ∨
      stoi ((Dict.get "offset".toList (slaveKvs value)).getD []) = none) :
    parseInfoReplication text = none := by
  have hmem : slaveKvs value ∈ (scanText text).slaveMap := by
    rw [scanText_slaveMap, List.mem_filterMap]
    exact ⟨_, hline, slaveOfLine_slave key value hcolon hkey⟩
  have hconv : toInfoSlave (slaveToJson (slaveKvs value)) = none := by
    unfold toInfoSlave
    simp only [memberAsString_slaveToJson _ (slaveKvs_sorted value)]
    rcases hbad with h | h | h
    · rw [h]
    · rw [h]; split <;> rfl
    · rw [h]; split
      · rfl
      · split <;> rfl
  have hnone : buildSlaves (scanText text).slaveMap = none := by
    rw [buildSlaves_eq]
    exact convertSlaves_eq_none_of_mem _ _ (List.mem_map_of_mem _ hmem) hconv
  unfold parseInfoReplication
  simp only [hnone]

/-- C2 (amended), at a text with an info line, the slave line of the example and
a well-formed slave line. -/
theorem parse_raises_on_non_integer_slave_field_witness :
    ("slave0".toList ++ ':' :: "ip=1.2.3.4,port=abc,state=1,offset=5\r".toList ∈
      getlines '\n'
        ("role:master\r\nslave0:ip=1.2.3.4,port=abc,state=1,offset=5\r\n".toList ++
          "slave1:ip=1.2.3.5,port=6380,state=1,offset=5\r\n".toList)) ∧
    parseInfoReplication
      ("role:master\r\nslave0:ip=1.2.3.4,port=abc,state=1,offset=5\r\n".toList ++
        "slave1:ip=1.2.3.5,port=6380,state=1,offset=5\r\n".toList) = none :=
  ⟨by decide,
    parse_raises_on_non_integer_slave_field _ "slave0".toList
      "ip=1.2.3.4,port=abc,state=1,offset=5\r".toList (by decide) (by decide) (by decide)
      (Or.inl (by decide))⟩

/-! ## Claim C3 -/

theorem takeWhile_dropWhile_ne (c : Char) (a b : Str) (h : c ∉ a) :
    (a ++ c :: b).takeWhile (fun x => x != c) = a ∧
      (a ++ c :: b).dropWhile (fun x => x != c) = c :: b := by
  induction a with
  | nil => simp [List.takeWhile, List.dropWhile]
  | cons x xs ih =>
    have hx : x ≠ c := fun e => h (by simp [e])
    have hxs : c ∉ xs := fun e => h (by simp [e])
    have hx' : (x != c) = true := by simpa using hx
    have := ih hxs
    constructor
    · show List.takeWhile (fun x => x != c) (x :: (xs ++ c :: b)) = x :: xs
      rw [List.takeWhile_cons, hx', this.1]
      rfl
    · show List.dropWhile (fun x => x != c) (x :: (xs ++ c :: b)) = c :: b
      rw [List.dropWhile_cons, hx', this.2]
      rfl

theorem find_some_spec (line : Str) (pos : Nat) (h : find ':' line = some pos) :
    trimKey (substrTo line pos) = (specSplitLine line).1 ∧
      substrFrom line (pos + 1) = (specSplitLine line).2 := by
  obtain ⟨hsplit, hnot⟩ := find_some_split ':' line pos h
  have := takeWhile_dropWhile_ne ':' (line.take pos) (line.drop (pos + 1)) hnot
  rw [← hsplit] at this
  unfold specSplitLine substrTo substrFrom
  rw [this.1, this.2]
  simp

theorem db0_prefix_db (k : Str) (h : "db".toList.isPrefixOf k = false) :
    findAtZero "db0".toList k = false := by
  unfold findAtZero
  match k with
  | [] => rfl
  | [a] => simp [String.toList, List.isPrefixOf]
  | a :: b :: rest =>
    simp only [String.toList, List.isPrefixOf, Bool.and_true] at h ⊢
    cases rest with
    | nil => simp
    | cons c cs =>
      simp only [List.isPrefixOf, Bool.and_true]
      rw [← Bool.and_assoc, h]
      rfl

theorem not_slave_of_other_start (k : Str) (h : "slave".toList.isPrefixOf k = false) :
    matchSlavePattern k = false := by
  unfold matchSlavePattern
  rw [h]
  rfl

theorem Dict.get_foldl_set {T : Type} (pairs : List (Str × T)) (m : Dict T) (k : Str) :
    Dict.get k (pairs.foldl (fun d kv => Dict.set kv.1 kv.2 d) m) =
      match pairs.reverse.find? (fun kv => kv.1 == k) with
      | some kv => some kv.2
      | none => Dict.get k m := by
  induction pairs using List.reverseRecOn with
  | nil => rfl
  | append_singleton ps p ih =>
    rw [List.foldl_append, List.reverse_append]
    simp only [List.foldl_cons, List.foldl_nil, List.reverse_cons, List.reverse_nil,
      List.nil_append, List.singleton_append, List.find?_cons]
    by_cases hk : p.1 = k
    · subst hk
      simp [Dict.get_set_self]
    · have hk' : (p.1 == k) = false := by simpa using hk
      rw [hk', Dict.get_set_of_ne _ _ _ _ (fun e => hk e.symm), ih]

theorem Dict.foldl_set_is_sorted {T : Type} (pairs : List (Str × T)) (m : Dict T)
    (hm : Dict.Sorted m) : Dict.Sorted (pairs.foldl (fun d kv => Dict.set kv.1 kv.2 d) m) := by
  induction pairs generalizing m with
  | nil => simpa using hm
  | cons p ps ih => rw [List.foldl_cons]; exact ih _ (Dict.set_sorted _ _ _ hm)

theorem plain_lines_scan (lines : List Str) (m : Dict Str)
    (hplain : ∀ l ∈ lines, l.contains ':' = true →
      "slave".toList.isPrefixOf (specSplitLine l).1 = false ∧
      "db".toList.isPrefixOf (specSplitLine l).1 = false) :
    lines.foldl infoOfLine m =
        ((lines.filter (fun line => line.contains ':')).map specSplitLine).foldl
          (fun d kv => Dict.set kv.1 kv.2 d) m ∧
      lines.filterMap slaveOfLine = [] := by
  induction lines generalizing m with
  | nil => exact ⟨rfl, rfl⟩
  | cons l ls ih =>
    have hls := fun x hx => hplain x (List.mem_cons_of_mem _ hx)
    by_cases hc : ':' ∈ l
    · obtain ⟨pos, hpos⟩ := find_isSome_of_mem ':' l hc
      have hcont : l.contains ':' = true := by simpa using hc
      obtain ⟨hs, hd⟩ := hplain l (by simp) hcont
      obtain ⟨e1, e2⟩ := find_some_spec l pos hpos
      have hinfo : infoOfLine m l = Dict.set (specSplitLine l).1 (specSplitLine l).2 m := by
        unfold infoOfLine
        rw [hpos]
        simp only [e1, e2, not_slave_of_other_start _ hs, db0_prefix_db _ hd, Bool.false_eq_true,
          if_false]
      have hslave : slaveOfLine l = none := by
        unfold slaveOfLine
        rw [hpos]
        simp only [e1, not_slave_of_other_start _ hs, Bool.false_eq_true, if_false]
      obtain ⟨i1, i2⟩ := ih (Dict.set (specSplitLine l).1 (specSplitLine l).2 m) hls
      have hf : (l :: ls).filter (fun line => line.contains ':')
          = l :: ls.filter (fun line => line.contains ':') := by
        simp only [List.filter, hcont]
      constructor
      · rw [List.foldl_cons, hinfo, i1, hf]
        rfl
      · rw [List.filterMap_cons, hslave]
        exact i2
    · have hcont : ¬ (l.contains ':' = true) := by simpa using hc
      have hinfo : infoOfLine m l = m := by
        unfold infoOfLine
        rw [find_eq_none ':' l hc]
      have hslave : slaveOfLine l = none := by
        unfold slaveOfLine
        rw [find_eq_none ':' l hc]
      obtain ⟨i1, i2⟩ := ih m hls
      have hf : (l :: ls).filter (fun line => line.contains ':')
          = ls.filter (fun line => line.contains ':') := by
        have hcf : l.contains ':' = false := by simpa using hcont
        simp only [List.filter, hcf]
      constructor
      · rw [List.foldl_cons, hinfo, i1, hf]
      · rw [List.filterMap_cons, hslave]
        exact i2

/-- C3: for a text none of whose line keys (the part before the first `:`,
trimmed) starts with `slave` or with `db`, the parser returns the status whose
info is the map of the specification: every line with a `:` split at its first
`:`, key trimmed, value raw, inserted in line order, a later duplicate
overwriting; and whose slaves sequence is empty. The map is a map (keys in
strictly increasing order) and looking a key up gives the value of the last
pair with that key. -/
theorem info_of_text_without_slave_or_db_keys (text : Str)
    (hplain : ∀ kv ∈ specPairs text,
      "slave".toList.isPrefixOf kv.1 = false ∧ "db".toList.isPrefixOf kv.1 = false) :
    parseInfoReplication text = some { info := specInfo text, slaves := [] } ∧
    Dict.Sorted (specInfo text) ∧
    ∀ k, Dict.get k (specInfo text) =
      ((specPairs text).reverse.find? (fun kv => kv.1 == k)).map Prod.snd := by
  have hlines : ∀ l ∈ getlines '\n' text, l.contains ':' = true →
      "slave".toList.isPrefixOf (specSplitLine l).1 = false ∧
      "db".toList.isPrefixOf (specSplitLine l).1 = false := by
    intro l hl hc
    apply hplain
    unfold specPairs
    exact List.mem_map_of_mem _ (List.mem_filter.2 ⟨hl, hc⟩)
  obtain ⟨hinfo, hslaves⟩ := plain_lines_scan (getlines '\n' text) [] hlines
  refine ⟨?_, ?_, ?_⟩
  · unfold parseInfoReplication
    have h1 : (scanText text).slaveMap = [] := by rw [scanText_slaveMap, hslaves]
    have h2 : (scanText text).info = specInfo text := by
      rw [scanText_info, hinfo]; rfl
    simp only [h1, h2]
    rfl
  · exact Dict.foldl_set_is_sorted _ _ (by simp [Dict.Sorted])
  · intro k
    unfold specInfo
    rw [Dict.get_foldl_set]
    cases (specPairs text).reverse.find? (fun kv => kv.1 == k) <;> rfl

/-- C3, at a text with a duplicate key, a key with white space around it, a line
without `:` and a `#` line with a `:`. -/
theorem info_of_text_without_slave_or_db_keys_witness :
    parseInfoReplication "role:master\r\n x y : 1\nrole:slave\nnocolon\n\n# c:d\n".toList
      = some { info := specInfo "role:master\r\n x y : 1\nrole:slave\nnocolon\n\n# c:d\n".toList,
               slaves := [] } ∧
    specInfo "role:master\r\n x y : 1\nrole:slave\nnocolon\n\n# c:d\n".toList
      = [("# c".toList, "d".toList), ("role".toList, "slave".toList),
          ("x y".toList, " 1".toList)] :=
  ⟨(info_of_text_without_slave_or_db_keys
      "role:master\r\n x y : 1\nrole:slave\nnocolon\n\n# c:d\n".toList (by decide)).1,
    by decide⟩

/-! ## Claim C4 -/

theorem getlines_append_complete (d : Char) (pre rest : Str)
    (hpre : pre = [] ∨ ∃ p, pre = p ++ [d]) :
    getlines d (pre ++ rest) = getlines d pre ++ getlines d rest := by
  rcases hpre with h | ⟨p, h⟩
  · subst h; rfl
  · subst h
    have h1 : p ++ [d] ++ rest = p ++ d :: rest := by simp
    have h2 : getlines d (p ++ [d]) = pieces d p := by
      have := getlines_append_cons d p []
      simpa [getlines] using this
    rw [h1, getlines_append_cons, h2]

theorem parse_eq_some (text : Str) (st : InfoReplication)
    (h : parseInfoReplication text = some st) :
    buildSlaves (scanText text).slaveMap = some st.slaves ∧ st.info = (scanText text).info := by
  unfold parseInfoReplication at h
  dsimp only at h
  split at h
  · exact absurd h (by simp)
  · rename_i slaves hs
    have := Option.some.inj h
    subst this
    exact ⟨hs, rfl⟩

theorem scanText_append_line (pre line : Str) (hpre : pre = [] ∨ ∃ p, pre = p ++ ['\n'])
    (hline : '\n' ∉ line) :
    scanText (pre ++ (line ++ ['\n'])) = scanLine (scanText pre) line := by
  unfold scanText
  have : line ++ ['\n'] = line ++ '\n' :: [] := rfl
  rw [getlines_append_complete '\n' pre _ hpre, this, getlines_line_delim '\n' line [] hline,
    List.foldl_append]
  rfl

theorem not_slave_of_db0 (k : Str) (h : findAtZero "db0".toList k = true) :
    matchSlavePattern k = false := by
  apply not_slave_of_other_start
  unfold findAtZero at h
  match k with
  | [] => simp [String.toList, List.isPrefixOf] at h
  | a :: rest =>
    simp only [String.toList, List.isPrefixOf, Bool.and_eq_true, beq_iff_eq] at h
    have ha : a = 'd' := h.1.symm
    subst ha
    simp [String.toList, List.isPrefixOf]

theorem dbKvs_binlog_offset (A B : Str) (info : Dict Str) (hA1 : ' ' ∉ A) (hA2 : ',' ∉ A)
    (hB : ',' ∉ B) :
    dbKvs ("binlog_offset".toList ++ '=' :: (A ++ ' ' :: B)) info =
      Dict.set "binlog_offset".toList B (Dict.set "binlog_file_num".toList A info) := by
  have hc : ',' ∉ "binlog_offset".toList ++ '=' :: (A ++ ' ' :: B) := by
    simp [hA2, hB]
  unfold dbKvs
  rw [getlines_of_not_mem ',' _ hc (by simp)]
  simp only [List.foldl_cons, List.foldl_nil]
  rw [find_append_cons '=' "binlog_offset".toList _ (by decide)]
  simp only [(take_drop_at_colon '=' _ _).1, (take_drop_at_colon '=' _ _).2, if_true]
  rw [find_append_cons ' ' A B hA1]
  simp only [(take_drop_at_colon ' ' _ _).1, (take_drop_at_colon ' ' _ _).2]

/-- C4, the claim as stated fails: on the text of the example the value stored
under `binlog_offset` is not `512`; it is `512` followed by the carriage
return. -/
theorem C4_example_offset_keeps_carriage_return :
    (parseInfoReplication "db0:binlog_offset=00000001 512\r\n".toList).bind
        (fun st => Dict.get "binlog_offset".toList st.info) ≠ some "512".toList ∧
    parseInfoReplication "db0:binlog_offset=00000001 512\r\n".toList
      = some { info := [("binlog_file_num".toList, "00000001".toList),
                        ("binlog_offset".toList, "512\r".toList)],
               slaves := [] } := by
  decide

/-- C4 (amended): after any complete lines `pre` that the parser accepts, a
CRLF-terminated line `key:binlog_offset=A B`, whose trimmed key starts with
`db0`, with `A` free of space and comma and `B` free of comma, makes the info
map hold `binlog_file_num = A` and `binlog_offset = B` followed by the carriage
return; the other info entries and the slaves are those of `pre`. -/
theorem db0_line_binlog_offset (pre key A B : Str) (st0 : InfoReplication)
    (hpre : pre = [] ∨ ∃ p, pre = p ++ ['\n'])
    (hparse : parseInfoReplication pre = some st0)
    (hk1 : ':' ∉ key) (hk2 : '\n' ∉ key)
    (hk3 : findAtZero "db0".toList (trimKey key) = true)
    (hA : ' ' ∉ A ∧ ',' ∉ A ∧ '\n' ∉ A) (hB : ',' ∉ B ∧ '\n' ∉ B) :
    ∃ st, parseInfoReplication
        (pre ++ (key ++ ":binlog_offset=".toList ++ A ++ ' ' :: B ++ "\r\n".toList)) = some st ∧
      Dict.get "binlog_file_num".toList st.info = some A ∧
      Dict.get "binlog_offset".toList st.info = some (B ++ ['\r']) ∧
      st.slaves = st0.slaves ∧
      ∀ k, k ≠ "binlog_file_num".toList → k ≠ "binlog_offset".toList →
        Dict.get k st.info = Dict.get k st0.info := by
  obtain ⟨hs0, hi0⟩ := parse_eq_some pre st0 hparse
  have htext : key ++ ":binlog_offset=".toList ++ A ++ ' ' :: B ++ "\r\n".toList
      = (key ++ ':' :: ("binlog_offset".toList ++ '=' :: (A ++ ' ' :: (B ++ ['\r'])))) ++ ['\n'] := by
    simp [String.toList, List.append_assoc]
  have hn : '\n' ∉ key ++ ':' :: ("binlog_offset".toList ++ '=' :: (A ++ ' ' :: (B ++ ['\r']))) := by
    simp [hk2, hA.2.2, hB.2]
  have hBr : ',' ∉ B ++ ['\r'] := by simp [hB.1]
  have hscan := scanText_append_line pre _ hpre hn
  rw [scanLine_db0 _ key _ hk1 (not_slave_of_db0 _ hk3) hk3,
    dbKvs_binlog_offset A (B ++ ['\r']) _ hA.1 hA.2.1 hBr] at hscan
  refine ⟨InfoReplication.mk
      (Dict.set "binlog_offset".toList (B ++ ['\r'])
        (Dict.set "binlog_file_num".toList A (scanText pre).info))
      st0.slaves, ?_, ?_, ?_, rfl, ?_⟩
  · rw [htext]
    unfold parseInfoReplication
    simp only [hscan, hs0]
  · show Dict.get _ (Dict.set _ _ (Dict.set _ _ _)) = _
    rw [Dict.get_set_of_ne _ _ _ _ (by decide), Dict.get_set_self]
  · show Dict.get _ (Dict.set _ _ (Dict.set _ _ _)) = _
    rw [Dict.get_set_self]
  · intro k h1 h2
    show Dict.get _ (Dict.set _ _ (Dict.set _ _ _)) = _
    rw [Dict.get_set_of_ne _ _ _ _ h2, Dict.get_set_of_ne _ _ _ _ h1, hi0]

/-- C4 (amended), at the line of the example after an info line. -/
theorem db0_line_binlog_offset_witness :
    parseInfoReplication "role:master\r\n".toList
      = some { info := [("role".toList, "master\r".toList)], slaves := [] } ∧
    ∃ st, parseInfoReplication
        ("role:master\r\n".toList ++
          ("db0".toList ++ ":binlog_offset=".toList ++ "00000001".toList ++
            ' ' :: "512".toList ++ "\r\n".toList)) = some st ∧
      Dict.get "binlog_file_num".toList st.info = some "00000001".toList ∧
      Dict.get "binlog_offset".toList st.info = some ("512".toList ++ ['\r']) ∧
      st.slaves = [] ∧
      ∀ k, k ≠ "binlog_file_num".toList → k ≠ "binlog_offset".toList →
        Dict.get k st.info = Dict.get k [("role".toList, "master\r".toList)] :=
  ⟨by decide,
    db0_line_binlog_offset "role:master\r\n".toList "db0".toList "00000001".toList "512".toList
      { info := [("role".toList, "master\r".toList)], slaves := [] }
      (Or.inr ⟨"role:master\r".toList, by decide⟩) (by decide) (by decide) (by decide)
      (by decide) (by decide) (by decide)⟩

/-! ## Claim C5 -/

/-- C5: for every group id, term id and payload, the command built at lines
201-204 is `*4\r\n$6\r\nPKPING\r\n` followed by the three elements
`$<length>\r\n<bytes>\r\n` for the decimal group id, the decimal term id and
the payload; it is the encoding of the specification (four framed elements
behind `*4\r\n`); and `Encode(7, 3, "x")` is the byte string of the example. -/
theorem pkpingCmd_eq_specEncode (groupId termId : Int) (payload : Str) :
    pkpingCmd groupId termId payload =
      "*4\r\n$6\r\nPKPING\r\n".toList ++
        ('$' :: natToString (to_string groupId).length ++ "\r\n".toList ++
          to_string groupId ++ "\r\n".toList) ++
        ('$' :: natToString (to_string termId).length ++ "\r\n".toList ++
          to_string termId ++ "\r\n".toList) ++
        ('$' :: natToString payload.length ++ "\r\n".toList ++ payload ++ "\r\n".toList) ∧
    pkpingCmd groupId termId payload = specEncode groupId termId payload ∧
    pkpingCmd 7 3 "x".toList
      = "*4\r\n$6\r\nPKPING\r\n$1\r\n7\r\n$1\r\n3\r\n$1\r\nx\r\n".toList := by
  refine ⟨?_, ?_, by decide⟩
  · simp [pkpingCmd, String.toList, List.append_assoc]
  · have h6 : natToString "PKPING".toList.length = ['6'] := by decide
    simp only [pkpingCmd, specEncode, specBulk, List.map_cons, List.map_nil, List.flatten_cons,
      List.flatten_nil, h6]
    simp [String.toList, List.append_assoc]

/-! ## Lemmas on the reply buffer and on one node step -/

theorem take_set_self (l : Str) (i : Nat) (c : Char) : (l.set i c).take i = l.take i := by
  induction l generalizing i with
  | nil => simp
  | cons x xs ih =>
    cases i with
    | zero => simp
    | succ j => simp [ih]

theorem toSizeT_natCast (n : Nat) (h : n < 18446744073709551616) : toSizeT (n : Int) = n := by
  unfold toSizeT
  rw [Int.emod_eq_of_lt (by omega) (by omega)]
  simp

theorem sendRedisCommand_replied (reply : Str) (h : reply.length ≤ 4095) :
    sendRedisCommand (reply ++ List.replicate (4096 - reply.length) (Char.ofNat 0))
      reply.length = some reply := by
  have hlen : (reply ++ List.replicate (4096 - reply.length) (Char.ofNat 0)).length = 4096 := by
    rw [List.length_append, List.length_replicate]; omega
  unfold sendRedisCommand
  rw [toSizeT_natCast reply.length (by omega), hlen, if_pos (by omega), take_set_self,
    List.take_left]

theorem sendRedisCommand_readFailed :
    sendRedisCommand (List.replicate 4096 (Char.ofNat 0)) (-1) = none := by
  have h1 : toSizeT (-1) = 18446744073709551615 := by decide
  unfold sendRedisCommand
  rw [h1, List.length_replicate]
  simp

theorem raises_replied (reply : Str) (h : reply.length ≤ 4095) :
    (ProbeOutcome.replied reply).raises = (parseInfoReplication reply).isNone := by
  unfold ProbeOutcome.replied ProbeOutcome.raises
  simp only [sendRedisCommand_replied reply h]

theorem raises_readFailed : ProbeOutcome.readFailed.raises = true := by
  unfold ProbeOutcome.readFailed ProbeOutcome.raises
  simp only [sendRedisCommand_readFailed]

theorem runNode_connected_returns (w : World) (buffer : Str) (length : Int) (node : Host)
    (h : (ProbeOutcome.connected buffer length).raises = false) :
    runNode true w (ProbeOutcome.connected buffer length) node
      = RunResult.completed
          { dialed := w.dialed ++ [(node.host, node.port)],
            commands := w.commands ++ [pkpingCmd node.group_id node.term_id []],
            sink := w.sink ++ [Packet.bytes []] ++ [Packet.json JRoot.null] } := by
  have hp : parseInfoReplication [] = some { info := [], slaves := [] } := by decide
  have hb : buildRoot { info := [], slaves := [] } = some JRoot.null := by decide
  cases hs : sendRedisCommand buffer length with
  | none => simp [ProbeOutcome.raises, hs] at h
  | some reply =>
    cases hr : parseInfoReplication reply with
    | none => simp [ProbeOutcome.raises, hs, hr] at h
    | some st => simp only [runNode, PKPingRedis, hs, hr, hp, hb, if_true]

theorem runNode_returns (w : World) (outcome : ProbeOutcome) (node : Host)
    (h : outcome.raises = false) :
    ∃ w', runNode true w outcome node = RunResult.completed w' ∧
      w'.dialed = w.dialed ++ [(node.host, node.port)] ∧
      w'.sink = w.sink ++ [Packet.bytes [], Packet.json JRoot.null] := by
  have hp : parseInfoReplication [] = some { info := [], slaves := [] } := by decide
  have hb : buildRoot { info := [], slaves := [] } = some JRoot.null := by decide
  cases outcome with
  | socketError =>
    refine ⟨World.mk (w.dialed ++ [(node.host, node.port)]) w.commands
      (w.sink ++ [Packet.bytes []] ++ [Packet.json JRoot.null]), ?_, rfl, by simp⟩
    simp only [runNode, PKPingRedis, hp, hb, if_true]
  | invalidAddress =>
    refine ⟨World.mk (w.dialed ++ [(node.host, node.port)]) w.commands
      (w.sink ++ [Packet.bytes []] ++ [Packet.json JRoot.null]), ?_, rfl, by simp⟩
    simp only [runNode, PKPingRedis, hp, hb, if_true]
  | connectFailed =>
    refine ⟨World.mk (w.dialed ++ [(node.host, node.port)]) w.commands
      (w.sink ++ [Packet.bytes []] ++ [Packet.json JRoot.null]), ?_, rfl, by simp⟩
    simp only [runNode, PKPingRedis, hp, hb, if_true]
  | connected buffer length =>
    exact ⟨_, runNode_connected_returns w buffer length node h, rfl, by simp⟩

theorem runNode_raises (w : World) (outcome : ProbeOutcome) (node : Host)
    (h : outcome.raises = true) :
    ∃ w', runNode true w outcome node = RunResult.raised w' ∧
      w'.dialed = w.dialed ++ [(node.host, node.port)] ∧ w'.sink = w.sink := by
  cases outcome with
  | socketError => simp [ProbeOutcome.raises] at h
  | invalidAddress => simp [ProbeOutcome.raises] at h
  | connectFailed => simp [ProbeOutcome.raises] at h
  | connected buffer length =>
    refine ⟨World.mk (w.dialed ++ [(node.host, node.port)])
      (w.commands ++ [pkpingCmd node.group_id node.term_id []]) w.sink, ?_, rfl, rfl⟩
    cases hs : sendRedisCommand buffer length with
    | none => simp only [runNode, PKPingRedis, hs]
    | some reply =>
      cases hr : parseInfoReplication reply with
      | none => simp only [runNode, PKPingRedis, hs, hr]
      | some st => simp [ProbeOutcome.raises, hs, hr] at h

/-! ## Claim C6 -/

/-- C6, what the code does at a node whose probe returns the reply
`role:master\r\n`: the step sends the command, and writes to the sink an empty
message and the document `null`. The reply is not written, and the document is
not the one of the parsed reply, which would be the object with the member
`role`. -/
theorem runNode_publishes_neither_reply_nor_its_status :
    runNode true World.initial (ProbeOutcome.replied "role:master\r\n".toList)
        { host := "10.0.0.1".toList, port := 9221, group_id := 7, term_id := 3 }
      = RunResult.completed
          { dialed := [("10.0.0.1".toList, 9221)],
            commands := [pkpingCmd 7 3 []],
            sink := [Packet.bytes [], Packet.json JRoot.null] } ∧
    (parseInfoReplication "role:master\r\n".toList).bind buildRoot
      = some (JRoot.object
          [("role".toList, JMember.scalar (JScalar.str "master\r".toList))]) := by
  constructor
  · have h : (ProbeOutcome.replied "role:master\r\n".toList).raises = false := by
      rw [raises_replied _ (by decide)]
      decide
    exact runNode_connected_returns World.initial _ _ _ h
  · decide

/-! ## Claim C7 -/

theorem runCycle_all_return (net : Nat → ProbeOutcome) (hosts : List Host) (n : Nat)
    (w : World) (h : ∀ i, i < hosts.length → (net (n + i)).raises = false) :
    ∃ w', runCycle true net n w hosts = RunResult.completed w' ∧
      w'.dialed = w.dialed ++ hosts.map (fun node => (node.host, node.port)) ∧
      w'.sink.length = w.sink.length + 2 * hosts.length := by
  induction hosts generalizing n w with
  | nil => exact ⟨w, rfl, by simp, by simp⟩
  | cons node rest ih =>
    obtain ⟨w1, h1, hd1, hs1⟩ := runNode_returns w (net n) node (by simpa using h 0 (by simp))
    obtain ⟨w2, h2, hd2, hs2⟩ := ih (n + 1) w1
      (fun i hi => by
        have := h (i + 1) (by simp only [List.length_cons]; omega)
        rw [show n + 1 + i = n + (i + 1) by omega]
        exact this)
    refine ⟨w2, ?_, ?_, ?_⟩
    · simp only [runCycle, h1, h2]
    · rw [hd2, hd1]; simp
    · rw [hs2, hs1]; simp only [List.length_append, List.length_cons, List.length_nil]; omega

theorem runCycle_raises_at (net : Nat → ProbeOutcome) (hosts : List Host) (n : Nat)
    (w : World) (k : Nat) (hk : k < hosts.length)
    (hbefore : ∀ i, i < k → (net (n + i)).raises = false)
    (hat : (net (n + k)).raises = true) :
    ∃ w', runCycle true net n w hosts = RunResult.raised w' ∧
      w'.dialed = w.dialed ++ (hosts.take (k + 1)).map (fun node => (node.host, node.port)) ∧
      w'.sink.length = w.sink.length + 2 * k := by
  induction hosts generalizing n w k with
  | nil => simp at hk
  | cons node rest ih =>
    cases k with
    | zero =>
      obtain ⟨w1, h1, hd1, hs1⟩ := runNode_raises w (net n) node (by simpa using hat)
      refine ⟨w1, ?_, ?_, ?_⟩
      · simp only [runCycle, h1]
      · rw [hd1]; simp
      · rw [hs1]; simp
    | succ j =>
      obtain ⟨w1, h1, hd1, hs1⟩ := runNode_returns w (net n) node
        (by simpa using hbefore 0 (by omega))
      obtain ⟨w2, h2, hd2, hs2⟩ := ih (n + 1) w1 j (by simpa using hk)
        (fun i hi => by
          have := hbefore (i + 1) (by omega)
          rw [show n + 1 + i = n + (i + 1) by omega]
          exact this)
        (by rw [show n + 1 + j = n + (j + 1) by omega]; exact hat)
      refine ⟨w2, ?_, ?_, ?_⟩
      · simp only [runCycle, h1, h2]
      · rw [hd2, hd1]; simp
      · rw [hs2, hs1]; simp only [List.length_append, List.length_cons, List.length_nil]; omega

/-- C7, the claim as stated fails: a node whose connection fails is not skipped.
Its step writes two packets to the sink, and a cycle over three nodes whose
second connection fails writes six packets, two of them for the second node. -/
theorem C7_failed_node_is_published :
    runNode true World.initial ProbeOutcome.connectFailed
        { host := "10.0.0.2".toList, port := 9221, group_id := 1, term_id := 1 }
      = RunResult.completed
          { dialed := [("10.0.0.2".toList, 9221)], commands := [],
            sink := [Packet.bytes [], Packet.json JRoot.null] } ∧
    runCycle true
        (fun n => if n = 1 then ProbeOutcome.connectFailed
          else ProbeOutcome.replied "role:master\r\n".toList)
        0 World.initial
        [{ host := "10.0.0.1".toList, port := 9221, group_id := 1, term_id := 1 },
         { host := "10.0.0.2".toList, port := 9221, group_id := 1, term_id := 1 },
         { host := "10.0.0.3".toList, port := 9221, group_id := 1, term_id := 1 }]
      = RunResult.completed
          { dialed := [("10.0.0.1".toList, 9221), ("10.0.0.2".toList, 9221),
              ("10.0.0.3".toList, 9221)],
            commands := [pkpingCmd 1 1 [], pkpingCmd 1 1 []],
            sink := [Packet.bytes [], Packet.json JRoot.null, Packet.bytes [],
              Packet.json JRoot.null, Packet.bytes [], Packet.json JRoot.null] } := by
  have h : (ProbeOutcome.replied "role:master\r\n".toList).raises = false := by
    rw [raises_replied _ (by decide)]
    decide
  have hf : runNode true World.initial ProbeOutcome.connectFailed
        { host := "10.0.0.2".toList, port := 9221, group_id := 1, term_id := 1 }
      = RunResult.completed
          { dialed := [("10.0.0.2".toList, 9221)], commands := [],
            sink := [Packet.bytes [], Packet.json JRoot.null] } := by decide
  refine ⟨hf, ?_⟩
  simp only [runCycle, Nat.zero_add, if_true, if_false, Nat.reduceAdd, Nat.reduceEqDiff,
    OfNat.zero_ne_ofNat, OfNat.ofNat_ne_one]
  unfold ProbeOutcome.replied at h ⊢
  rw [runNode_connected_returns World.initial _ _ _ h]
  simp only []
  have hf2 : ∀ w : World, runNode true w ProbeOutcome.connectFailed
        { host := "10.0.0.2".toList, port := 9221, group_id := 1, term_id := 1 }
      = RunResult.completed
          { dialed := w.dialed ++ [("10.0.0.2".toList, 9221)], commands := w.commands,
            sink := w.sink ++ [Packet.bytes []] ++ [Packet.json JRoot.null] } := by
    intro w
    have hp : parseInfoReplication [] = some { info := [], slaves := [] } := by decide
    have hb : buildRoot { info := [], slaves := [] } = some JRoot.null := by decide
    simp only [runNode, PKPingRedis, hp, hb, if_true]
  rw [hf2]
  simp only []
  rw [runNode_connected_returns _ _ _ _ h]
  rfl

/-- C7 (amended): in one cycle over the registry, with a sink attached, a probe
that fails at the socket, at the address or at the connection neither ends the
cycle nor is skipped by the publishing step. As long as no exchange raises (no
read fails and no reply makes the parser raise), the cycle runs to its end:
every node of the registry is dialed, in registry order, and the sink receives
two packets for every node, a node whose probe failed included. The first node
whose read fails or whose reply makes the parser raise ends the cycle: the
exception leaves `Run`; that node has been dialed, the nodes after it are not,
and the sink holds the two packets of each node before it. -/
theorem runCycle_dials_and_publishes_every_node (net : Nat → ProbeOutcome) (hosts : List Host)
    (n : Nat) (w : World) :
    ((∀ i, i < hosts.length → (net (n + i)).raises = false) →
      ∃ w', runCycle true net n w hosts = RunResult.completed w' ∧
        w'.dialed = w.dialed ++ hosts.map (fun node => (node.host, node.port)) ∧
        w'.sink.length = w.sink.length + 2 * hosts.length) ∧
    (∀ k, k < hosts.length → (∀ i, i < k → (net (n + i)).raises = false) →
      (net (n + k)).raises = true →
      ∃ w', runCycle true net n w hosts = RunResult.raised w' ∧
        w'.dialed = w.dialed ++ (hosts.take (k + 1)).map (fun node => (node.host, node.port)) ∧
        w'.sink.length = w.sink.length + 2 * k) ∧
    ProbeOutcome.socketError.raises = false ∧ ProbeOutcome.invalidAddress.raises = false ∧
    ProbeOutcome.connectFailed.raises = false ∧ ProbeOutcome.readFailed.raises = true :=
  ⟨runCycle_all_return net hosts n w,
    fun k hk hbefore hat => runCycle_raises_at net hosts n w k hk hbefore hat,
    rfl, rfl, rfl, raises_readFailed⟩

/-- C7 (amended), at the registry of three nodes: when the second connection
fails, all three nodes are dialed and six packets are written; when the read
of the second node fails, the cycle ends there, the third node is not dialed
and two packets have been written. -/
theorem runCycle_dials_and_publishes_every_node_witness :
    (∃ w', runCycle true
        (fun n => if n = 1 then ProbeOutcome.connectFailed
          else ProbeOutcome.replied "role:master\r\n".toList)
        0 World.initial
        [{ host := "10.0.0.1".toList, port := 9221, group_id := 1, term_id := 1 },
         { host := "10.0.0.2".toList, port := 9221, group_id := 1, term_id := 1 },
         { host := "10.0.0.3".toList, port := 9221, group_id := 1, term_id := 1 }]
        = RunResult.completed w' ∧
      w'.dialed = World.initial.dialed ++
        [("10.0.0.1".toList, 9221), ("10.0.0.2".toList, 9221), ("10.0.0.3".toList, 9221)] ∧
      w'.sink.length = World.initial.sink.length + 2 * 3) ∧
    (∃ w', runCycle true
        (fun n => if n = 1 then ProbeOutcome.readFailed
          else ProbeOutcome.replied "role:master\r\n".toList)
        0 World.initial
        [{ host := "10.0.0.1".toList, port := 9221, group_id := 1, term_id := 1 },
         { host := "10.0.0.2".toList, port := 9221, group_id := 1, term_id := 1 },
         { host := "10.0.0.3".toList, port := 9221, group_id := 1, term_id := 1 }]
        = RunResult.raised w' ∧
      w'.dialed = World.initial.dialed ++
        [("10.0.0.1".toList, 9221), ("10.0.0.2".toList, 9221)] ∧
      w'.sink.length = World.initial.sink.length + 2 * 1) :=
  have h : (ProbeOutcome.replied "role:master\r\n".toList).raises = false := by
    rw [raises_replied _ (by decide)]
    decide
  ⟨(runCycle_dials_and_publishes_every_node
      (fun n => if n = 1 then ProbeOutcome.connectFailed
        else ProbeOutcome.replied "role:master\r\n".toList)
      [{ host := "10.0.0.1".toList, port := 9221, group_id := 1, term_id := 1 },
       { host := "10.0.0.2".toList, port := 9221, group_id := 1, term_id := 1 },
       { host := "10.0.0.3".toList, port := 9221, group_id := 1, term_id := 1 }]
      0 World.initial).1
      (by
        intro i _
        by_cases hi : 0 + i = 1
        · simp only [hi, if_true]; rfl
        · simp only [hi, if_false]; exact h),
    (runCycle_dials_and_publishes_every_node
      (fun n => if n = 1 then ProbeOutcome.readFailed
        else ProbeOutcome.replied "role:master\r\n".toList)
      [{ host := "10.0.0.1".toList, port := 9221, group_id := 1, term_id := 1 },
       { host := "10.0.0.2".toList, port := 9221, group_id := 1, term_id := 1 },
       { host := "10.0.0.3".toList, port := 9221, group_id := 1, term_id := 1 }]
      0 World.initial).2.1 1 (by decide)
      (by
        intro i hi
        have hi0 : i = 0 := by omega
        subst hi0
        exact h)
      raises_readFailed⟩

/-! ## Claim C8 -/

theorem filterMap_slaveOfLine_descriptors (lines : List Str) :
    (lines.filterMap slaveOfLine).map (fun slave => toInfoSlave (slaveToJson slave))
      = (lines.filter isSlaveLine).map descriptorOfLine := by
  induction lines with
  | nil => rfl
  | cons l ls ih =>
    cases h : slaveOfLine l with
    | none =>
      have hf : isSlaveLine l = false := by simp [isSlaveLine, h]
      rw [List.filterMap_cons, h]
      simp only [List.filter, hf]
      exact ih
    | some m =>
      have hf : isSlaveLine l = true := by simp [isSlaveLine, h]
      have hd : descriptorOfLine l = toInfoSlave (slaveToJson m) := by
        simp [descriptorOfLine, h]
      rw [List.filterMap_cons, h]
      simp only [List.filter, hf, List.map_cons, hd]
      rw [← ih]

/-- C8, the claim as stated fails: two lines with the same key `slave0` give two
descriptors, one per line; they are not accumulated into one group. -/
theorem C8_repeated_slave_key_gives_two_descriptors :
    parseInfoReplication
      ("slave0:ip=10.0.0.1,port=6380,state=1,offset=100\n".toList ++
        "slave0:ip=10.0.0.2,port=6381,state=2,offset=200\n".toList)
    = some { info := [],
             slaves := [{ ip := "10.0.0.1".toList, port := 6380, state := 1, offset := 100 },
                        { ip := "10.0.0.2".toList, port := 6381, state := 2, offset := 200 }] } := by
  decide

/-- C8 (amended): for every text whose slave lines are all well-formed (each gives
a descriptor), the parser returns a status whose slaves sequence holds exactly
one descriptor per slave line, in line order: the descriptor of that line
alone. The digits of the slave key play no part, and lines with the same key
give one descriptor each. -/
theorem slaves_one_descriptor_per_slave_line (text : Str)
    (hwf : ∀ line ∈ getlines '\n' text, isSlaveLine line = true → descriptorOfLine line ≠ none) :
    ∃ st, parseInfoReplication text = some st ∧
      st.slaves.map some = ((getlines '\n' text).filter isSlaveLine).map descriptorOfLine ∧
      st.slaves.length = ((getlines '\n' text).filter isSlaveLine).length := by
  have hall : ∀ j ∈ ((scanText text).slaveMap).map slaveToJson, toInfoSlave j ≠ none := by
    intro j hj
    rw [scanText_slaveMap] at hj
    obtain ⟨m, hm, rfl⟩ := List.mem_map.1 hj
    obtain ⟨line, hline, hsl⟩ := List.mem_filterMap.1 hm
    have h1 : isSlaveLine line = true := by simp [isSlaveLine, hsl]
    have h2 : descriptorOfLine line = toInfoSlave (slaveToJson m) := by
      simp [descriptorOfLine, hsl]
    rw [← h2]
    exact hwf line hline h1
  obtain ⟨ss, hss, hmap⟩ := convertSlaves_of_all_some _ hall
  have hdesc : ss.map some = ((getlines '\n' text).filter isSlaveLine).map descriptorOfLine := by
    rw [← hmap, scanText_slaveMap, List.map_map, ← filterMap_slaveOfLine_descriptors]
    rfl
  refine ⟨InfoReplication.mk (scanText text).info ss, ?_, hdesc, ?_⟩
  · unfold parseInfoReplication
    simp only [buildSlaves_eq, hss]
  · have := congrArg List.length hdesc
    simpa using this

/-- C8 (amended), at a text with an info line between two lines of key `slave0`. -/
theorem slaves_one_descriptor_per_slave_line_witness :
    ∃ st, parseInfoReplication
        ("slave0:ip=10.0.0.1,port=6380,state=1,offset=100\nrole:master\n".toList ++
          "slave0:ip=10.0.0.2,port=6381,state=2,offset=200\n".toList) = some st ∧
      st.slaves.map some =
        ((getlines '\n'
          ("slave0:ip=10.0.0.1,port=6380,state=1,offset=100\nrole:master\n".toList ++
            "slave0:ip=10.0.0.2,port=6381,state=2,offset=200\n".toList)).filter
          isSlaveLine).map descriptorOfLine ∧
      st.slaves.length =
        ((getlines '\n'
          ("slave0:ip=10.0.0.1,port=6380,state=1,offset=100\nrole:master\n".toList ++
            "slave0:ip=10.0.0.2,port=6381,state=2,offset=200\n".toList)).filter
          isSlaveLine).length :=
  slaves_one_descriptor_per_slave_line _ (by decide)

/-! ## Claim C9 -/

/-- C9, the claim as stated fails on both sides: the key `db1` has the form
`db<digits>` and its line is inserted into info verbatim, nothing being
extracted; the key `db0x` has not that form and its line goes through the db
handling, the key not being inserted. -/
theorem C9_db1_is_inserted_and_db0x_is_routed :
    parseInfoReplication "db1:binlog_offset=00000001 512\n".toList
      = some { info := [("db1".toList, "binlog_offset=00000001 512".toList)], slaves := [] } ∧
    parseInfoReplication "db0x:binlog_offset=00000001 512\n".toList
      = some { info := [("binlog_file_num".toList, "00000001".toList),
                        ("binlog_offset".toList, "512".toList)],
               slaves := [] } := by
  decide

/-- C9 (amended): the route of a line `key:value` is decided by whether its
trimmed key starts with `db0`. When it does (`db0`, `db01`, `db0x`), the line
goes through the db handling: nothing is added to the slaves, and no info entry
other than `binlog_file_num` and `binlog_offset` is added or changed, so the
key itself is not inserted and every other subkey is discarded. When it does
not and the key is not `slave<digits>` either (`db1`, `db15`, `db`), the
trimmed key is inserted into info with the raw value. -/
theorem scanLine_routes_on_db0_start (st : ScanState) (key value : Str) (hcolon : ':' ∉ key) :
    (findAtZero "db0".toList (trimKey key) = true →
      (scanLine st (key ++ ':' :: value)).slaveMap = st.slaveMap ∧
      (scanLine st (key ++ ':' :: value)).info = dbKvs value st.info ∧
      ∀ k, k ≠ "binlog_file_num".toList → k ≠ "binlog_offset".toList →
        Dict.get k (scanLine st (key ++ ':' :: value)).info = Dict.get k st.info) ∧
    (findAtZero "db0".toList (trimKey key) = false →
      matchSlavePattern (trimKey key) = false →
      scanLine st (key ++ ':' :: value) =
        { st with info := Dict.set (trimKey key) value st.info }) ∧
    findAtZero "db0".toList "db1".toList = false ∧
    findAtZero "db0".toList "db15".toList = false ∧
    findAtZero "db0".toList "db".toList = false ∧
    findAtZero "db0".toList "db0x".toList = true := by
  refine ⟨?_, ?_, by decide, by decide, by decide, by decide⟩
  · intro hdb
    rw [scanLine_db0 st key value hcolon (not_slave_of_db0 _ hdb) hdb]
    exact ⟨rfl, rfl, fun k h1 h2 => dbKvs_get_other value st.info k h1 h2⟩
  · intro hdb hsl
    exact scanLine_plain st key value hcolon hsl hdb

/-- C9 (amended), at the line `db0:binlog_offset=1 2,safety_purge=none` and a
state that holds one info entry. -/
theorem scanLine_routes_on_db0_start_witness :
    ':' ∉ "db0".toList ∧
    (scanLine { info := [("role".toList, "master".toList)], slaveMap := [] }
      ("db0".toList ++ ':' :: "binlog_offset=1 2,safety_purge=none".toList)).info
      = [("binlog_file_num".toList, "1".toList), ("binlog_offset".toList, "2".toList),
          ("role".toList, "master".toList)] :=
  ⟨by decide,
    ((scanLine_routes_on_db0_start
      { info := [("role".toList, "master".toList)], slaveMap := [] } "db0".toList
      "binlog_offset=1 2,safety_purge=none".toList (by decide)).1 (by decide)).2.1.trans
      (by decide)⟩

/-! ## Claim C10 -/

/-- C10, what the keyed parser does with a `#` line that holds a `:`: the line is
not skipped, it adds the entry `#role` to info; without the line the info map
is empty. -/
theorem hash_line_with_colon_is_not_skipped :
    parseInfoReplication "#role:master\n".toList
      = some { info := [("#role".toList, "master".toList)], slaves := [] } ∧
    parseInfoReplication [] = some { info := [], slaves := [] } := by
  decide

/-! ## Claim C16 -/

/-- C16: for every registry and every host, port, group id and term id, `AddHost`
returns the previous sequence with the new entry appended at the end: the
registry grows by one, its old entries are unchanged and in their order, the
last entry is the new one, and the entry is added even when an equal one is
already present (its number of occurrences grows by one). The function is
total: no input is rejected. -/
theorem AddHost_appends (hosts_ : List Host) (host : Str) (port group_id term_id : Int) :
    (AddHost hosts_ host port group_id term_id).length = hosts_.length + 1 ∧
    (AddHost hosts_ host port group_id term_id).take hosts_.length = hosts_ ∧
    (AddHost hosts_ host port group_id term_id).getLast?
      = some { host := host, port := port, group_id := group_id, term_id := term_id } ∧
    (AddHost hosts_ host port group_id term_id).count
        { host := host, port := port, group_id := group_id, term_id := term_id }
      = hosts_.count { host := host, port := port, group_id := group_id, term_id := term_id }
        + 1 ∧
    AddHost (AddHost hosts_ host port group_id term_id) host port group_id term_id
      = hosts_ ++ [{ host := host, port := port, group_id := group_id, term_id := term_id },
          { host := host, port := port, group_id := group_id, term_id := term_id }] := by
  refine ⟨?_, ?_, ?_, ?_, ?_⟩
  · simp [AddHost]
  · simp [AddHost]
  · simp [AddHost]
  · simp [AddHost, List.count_append]
  · simp [AddHost]

/-! ## Claim C19 -/

/-- C19, what the code does when `read` fails and returns -1, on the buffer of
4096 zero bytes: the index of `buffer[length]` is 18446744073709551615, which
is outside the buffer, so the write is undefined behaviour; the same number is
the byte count handed to the string constructor. When `read` returns 5 after
writing `+PONG`, the index is inside and the reply is `+PONG`. -/
theorem sendRedisCommand_read_failure_writes_outside :
    toSizeT (-1) = 18446744073709551615 ∧
    ¬ toSizeT (-1) < (List.replicate 4096 (Char.ofNat 0)).length ∧
    sendRedisCommand (List.replicate 4096 (Char.ofNat 0)) (-1) = none ∧
    sendRedisCommand ("+PONG".toList ++ List.replicate 4091 (Char.ofNat 0)) 5
      = some "+PONG".toList := by
  have h1 : toSizeT (-1) = 18446744073709551615 := by decide
  have h5 : toSizeT 5 = 5 := by decide
  refine ⟨h1, ?_, ?_, ?_⟩
  · rw [h1, List.length_replicate]; decide
  · unfold sendRedisCommand
    rw [h1, List.length_replicate]
    simp
  · have hlen : ("+PONG".toList ++ List.replicate 4091 (Char.ofNat 0)).length = 4096 := by
      rw [List.length_append, List.length_replicate]; rfl
    unfold sendRedisCommand
    rw [h5, hlen, take_set_self]
    exact congrArg some (List.take_left' rfl)

/-! ## Claim C13 -/

/-- C13, the claim as stated fails: `Start` has no guard. Called a second time,
while the first loop runs, it is not a no-op: it creates a second loop, so two
loops exist, and the assignment to the joinable handle then calls
`std::terminate`. -/
theorem C13_second_Start_creates_second_loop :
    Start (Start Service.initial)
      = { running_ := true, thread_ := some 0, live := [0, 1], next := 2, terminated := true } ∧
    Start (Start Service.initial) ≠ Start Service.initial ∧
    (Start (Start Service.initial)).live.length = 2 := by
  decide

/-- C13 (amended): `Start` is unguarded. In every state in which nothing has gone
wrong (at most one loop exists there), `Start` sets the flag and creates a
loop, whatever the state. Called while no thread is joinable (Stopped), it
leads to a state with exactly that one loop, owned by the handle (Running).
Called while a thread is joinable (Running), it creates a second loop and
`std::terminate` is called. `Stop` leads back to the state without loop and
without joinable thread. So at most one loop exists in the states reached from
the initial one as long as `Start` is never called while Running. -/
theorem Start_creates_a_loop_unguarded (s : Service) (hinv : s.Inv) :
    s.live.length ≤ 1 ∧
    (Start s).running_ = true ∧ (Start s).live = s.live ++ [s.next] ∧
    (s.thread_ = none → (Start s).Inv ∧ (Start s).thread_ = some s.next) ∧
    (s.thread_ ≠ none → (Start s).terminated = true ∧ (Start s).live.length = 2) ∧
    ((Stop s).Inv ∧ (Stop s).thread_ = none ∧ (Stop s).running_ = false ∧ (Stop s).live = []) ∧
    Service.initial.Inv := by
  obtain ⟨ht, hl⟩ := hinv
  obtain ⟨r, th, live, next, term⟩ := s
  simp only at ht hl
  subst ht
  subst hl
  cases th with
  | none =>
    refine ⟨by simp, ?_, ?_, ?_, ?_, ?_, ?_⟩
    · simp [Start]
    · simp [Start]
    · intro _; simp [Start, Service.Inv]
    · intro h; exact absurd rfl h
    · simp [Stop, Service.Inv]
    · simp [Service.Inv, Service.initial]
  | some t =>
    refine ⟨by simp, ?_, ?_, ?_, ?_, ?_, ?_⟩
    · simp [Start]
    · simp [Start]
    · intro h; exact absurd h (by simp)
    · intro _; simp [Start]
    · simp [Stop, Service.Inv]
    · simp [Service.Inv, Service.initial]

/-- C13 (amended), at the state Running reached by one `Start`. -/
theorem Start_creates_a_loop_unguarded_witness :
    (Start Service.initial).Inv ∧
    (Start (Start Service.initial)).terminated = true ∧
    (Start (Start Service.initial)).live.length = 2 ∧
    (Stop (Start Service.initial)).live = [] :=
  ⟨by simp [Service.Inv, Start, Service.initial],
    ((Start_creates_a_loop_unguarded (Start Service.initial)
      (by simp [Service.Inv, Start, Service.initial])).2.2.2.2.1 (by decide)).1,
    ((Start_creates_a_loop_unguarded (Start Service.initial)
      (by simp [Service.Inv, Start, Service.initial])).2.2.2.2.1 (by decide)).2,
    (Start_creates_a_loop_unguarded (Start Service.initial)
      (by simp [Service.Inv, Start, Service.initial])).2.2.2.2.2.1.2.2.2⟩

/-! ## Claim C14 -/

theorem loopSteps_add (client : Bool) (net : Nat → ProbeOutcome) (hosts_ : List Host)
    (a b : Nat) (s : LoopState) :
    loopSteps client net hosts_ (a + b) s
      = loopSteps client net hosts_ b (loopSteps client net hosts_ a s) := by
  induction a generalizing s with
  | zero => simp [loopSteps]
  | succ a ih =>
    rw [Nat.succ_add]
    simp only [loopSteps]
    exact ih _

theorem loopSteps_terminated (client : Bool) (net : Nat → ProbeOutcome) (hosts_ : List Host)
    (k : Nat) (s : LoopState) (h : s.pc = LoopPc.terminated) :
    loopSteps client net hosts_ k s = s := by
  induction k with
  | zero => rfl
  | succ k ih =>
    have hstep : loopStep client net hosts_ s = s := by
      unfold loopStep
      rw [h]
    simp only [loopSteps, hstep]
    exact ih

theorem loop_pass (client : Bool) (net : Nat → ProbeOutcome) (hosts_ todo : List Host)
    (s : LoopState) (hpc : s.pc = LoopPc.forBody todo) :
    (∀ w', runCycle client net s.probes s.world todo = RunResult.completed w' →
      loopSteps client net hosts_ todo.length s
        = { running_ := s.running_, pc := LoopPc.forBody [], world := w',
            probes := s.probes + todo.length, started := s.started ++ todo } ∧
      ∀ k, k ≤ todo.length → (loopSteps client net hosts_ k s).pc ≠ LoopPc.returned) ∧
    (∀ w', runCycle client net s.probes s.world todo = RunResult.raised w' →
      ∀ k, (loopSteps client net hosts_ k s).pc ≠ LoopPc.returned) := by
  induction todo generalizing s with
  | nil =>
    obtain ⟨r, pc, w, n, st⟩ := s
    simp only at hpc
    subst hpc
    constructor
    · intro w' hw
      simp only [runCycle, RunResult.completed.injEq] at hw
      subst hw
      refine ⟨by simp [loopSteps], ?_⟩
      intro k hk
      have : k = 0 := by simpa using hk
      subst this
      simp [loopSteps]
    · intro w' hw
      simp [runCycle] at hw
  | cons node rest ih =>
    obtain ⟨r, pc, w, n, st⟩ := s
    simp only at hpc
    subst hpc
    cases hnode : runNode client w (net n) node with
    | completed w1 =>
      have hstep : loopStep client net hosts_
          { running_ := r, pc := LoopPc.forBody (node :: rest), world := w, probes := n,
            started := st }
          = { running_ := r, pc := LoopPc.forBody rest, world := w1, probes := n + 1,
              started := st ++ [node] } := by
        simp only [loopStep, hnode]
      obtain ⟨ihc, ihr⟩ := ih
        { running_ := r, pc := LoopPc.forBody rest, world := w1, probes := n + 1,
          started := st ++ [node] } rfl
      constructor
      · intro w' hw
        simp only [runCycle, hnode] at hw
        obtain ⟨h1, h2⟩ := ihc w' hw
        constructor
        · simp only [List.length_cons, loopSteps, hstep, h1]
          simp [Nat.add_assoc, Nat.add_comm 1]
        · intro k hk
          cases k with
          | zero => simp [loopSteps]
          | succ j =>
            simp only [loopSteps, hstep]
            exact h2 j (by simpa using hk)
      · intro w' hw k
        simp only [runCycle, hnode] at hw
        cases k with
        | zero => simp [loopSteps]
        | succ j =>
          simp only [loopSteps, hstep]
          exact ihr w' hw j
    | raised w1 =>
      have hstep : loopStep client net hosts_
          { running_ := r, pc := LoopPc.forBody (node :: rest), world := w, probes := n,
            started := st }
          = { running_ := r, pc := LoopPc.terminated, world := w1, probes := n + 1,
              started := st ++ [node] } := by
        simp only [loopStep, hnode]
      constructor
      · intro w' hw
        simp [runCycle, hnode] at hw
      · intro w' _ k
        cases k with
        | zero => simp [loopSteps]
        | succ j =>
          simp only [loopSteps, hstep]
          rw [loopSteps_terminated client net hosts_ j _ rfl]
          simp

theorem joinLoop_eq_none (client : Bool) (net : Nat → ProbeOutcome) (hosts_ : List Host)
    (fuel : Nat) (s : LoopState)
    (h : ∀ k, k ≤ fuel → (loopSteps client net hosts_ k s).pc ≠ LoopPc.returned) :
    joinLoop client net hosts_ fuel s = none := by
  induction fuel generalizing s with
  | zero =>
    have h0 : s.pc ≠ LoopPc.returned := h 0 (Nat.le_refl 0)
    simp only [joinLoop, h0, if_false]
  | succ fuel ih =>
    have h0 : s.pc ≠ LoopPc.returned := h 0 (Nat.zero_le _)
    simp only [joinLoop, h0, if_false]
    exact ih _ (fun k hk => h (k + 1) (by omega))

theorem joinLoop_eq_some (client : Bool) (net : Nat → ProbeOutcome) (hosts_ : List Host)
    (m : Nat) (s : LoopState)
    (h : ∀ k, k < m → (loopSteps client net hosts_ k s).pc ≠ LoopPc.returned)
    (hm : (loopSteps client net hosts_ m s).pc = LoopPc.returned) :
    joinLoop client net hosts_ m s = some (loopSteps client net hosts_ m s) := by
  induction m generalizing s with
  | zero =>
    have h0 : s.pc = LoopPc.returned := hm
    simp only [joinLoop, h0, if_true, loopSteps]
  | succ m ih =>
    have h0 : s.pc ≠ LoopPc.returned := h 0 (Nat.zero_lt_succ _)
    simp only [joinLoop, h0, if_false, loopSteps]
    exact ih _ (fun k hk => h (k + 1) (by omega)) hm

/-- C14, the claim as stated fails: with three nodes in the registry, when the
flag is cleared while the pass stands at the first node, the steps for the
second and the third node are still started before the loop returns. -/
theorem C14_remaining_nodes_are_still_started :
    (loopSteps true (fun _ => ProbeOutcome.connectFailed)
        [{ host := "10.0.0.1".toList, port := 9221, group_id := 1, term_id := 1 },
         { host := "10.0.0.2".toList, port := 9221, group_id := 1, term_id := 1 },
         { host := "10.0.0.3".toList, port := 9221, group_id := 1, term_id := 1 }] 5
        (requestStop
          { running_ := true,
            pc := LoopPc.forBody
              [{ host := "10.0.0.1".toList, port := 9221, group_id := 1, term_id := 1 },
               { host := "10.0.0.2".toList, port := 9221, group_id := 1, term_id := 1 },
               { host := "10.0.0.3".toList, port := 9221, group_id := 1, term_id := 1 }],
            world := World.initial, probes := 0, started := [] })).started
      = [{ host := "10.0.0.1".toList, port := 9221, group_id := 1, term_id := 1 },
         { host := "10.0.0.2".toList, port := 9221, group_id := 1, term_id := 1 },
         { host := "10.0.0.3".toList, port := 9221, group_id := 1, term_id := 1 }] ∧
    (loopSteps true (fun _ => ProbeOutcome.connectFailed)
        [{ host := "10.0.0.1".toList, port := 9221, group_id := 1, term_id := 1 },
         { host := "10.0.0.2".toList, port := 9221, group_id := 1, term_id := 1 },
         { host := "10.0.0.3".toList, port := 9221, group_id := 1, term_id := 1 }] 5
        (requestStop
          { running_ := true,
            pc := LoopPc.forBody
              [{ host := "10.0.0.1".toList, port := 9221, group_id := 1, term_id := 1 },
               { host := "10.0.0.2".toList, port := 9221, group_id := 1, term_id := 1 },
               { host := "10.0.0.3".toList, port := 9221, group_id := 1, term_id := 1 }],
            world := World.initial, probes := 0, started := [] })).pc
      = LoopPc.returned := by
  decide

/-- C14 (amended): in the step relation of the monitoring loop, once the flag has
been cleared while a pass is in progress, the loop is not ended at once.
Provided no step of a node still to be processed in the pass raises, the step
of every such node is run, in registry order, the flag is read only at the
next `while` test, and then `Run` returns; `Stop`, which joins the loop,
returns then and not before, with the loop in that state. When the step of one
of these nodes raises, the exception leaves `Run`: the loop never returns and
`Stop` does not return, however long it waits. -/
theorem stop_mid_cycle_finishes_the_pass (client : Bool) (net : Nat → ProbeOutcome)
    (hosts_ : List Host) (s : LoopState) (todo : List Host)
    (hpc : s.pc = LoopPc.forBody todo) :
    (∀ w', runCycle client net s.probes s.world todo = RunResult.completed w' →
      stopLoop client net hosts_ (todo.length + 2) s
        = some { running_ := false, pc := LoopPc.returned, world := w',
                 probes := s.probes + todo.length, started := s.started ++ todo } ∧
      ∀ fuel, fuel < todo.length + 2 → stopLoop client net hosts_ fuel s = none) ∧
    (∀ w', runCycle client net s.probes s.world todo = RunResult.raised w' →
      ∀ fuel, stopLoop client net hosts_ fuel s = none) := by
  have hpc' : (requestStop s).pc = LoopPc.forBody todo := hpc
  obtain ⟨hc, hr⟩ := loop_pass client net hosts_ todo (requestStop s) hpc'
  constructor
  · intro w' hw
    obtain ⟨hall, hnot⟩ := hc w' hw
    have hlast : loopSteps client net hosts_ (todo.length + 1) (requestStop s)
        = { running_ := false, pc := LoopPc.whileTest, world := w',
            probes := s.probes + todo.length, started := s.started ++ todo } := by
      rw [loopSteps_add, hall]
      simp [loopSteps, loopStep, requestStop]
    have hend : loopSteps client net hosts_ (todo.length + 2) (requestStop s)
        = { running_ := false, pc := LoopPc.returned, world := w',
            probes := s.probes + todo.length, started := s.started ++ todo } := by
      rw [show todo.length + 2 = (todo.length + 1) + 1 from rfl, loopSteps_add, hlast]
      simp [loopSteps, loopStep]
    have hbefore : ∀ k, k < todo.length + 2 →
        (loopSteps client net hosts_ k (requestStop s)).pc ≠ LoopPc.returned := by
      intro k hk
      by_cases hk' : k ≤ todo.length
      · exact hnot k hk'
      · have : k = todo.length + 1 := by omega
        rw [this, hlast]
        simp
    constructor
    · unfold stopLoop
      rw [joinLoop_eq_some client net hosts_ _ _ hbefore (by rw [hend]), hend]
    · intro fuel hfuel
      unfold stopLoop
      exact joinLoop_eq_none client net hosts_ fuel _ (fun k hk => hbefore k (by omega))
  · intro w' hw fuel
    unfold stopLoop
    exact joinLoop_eq_none client net hosts_ fuel _ (fun k _ => hr w' hw k)

/-- C14 (amended), at a registry of three nodes, the flag being cleared while the
pass stands at the second node: when the connections of the second and third
node fail, both steps are run and `Stop` returns after four steps of the loop;
when the read of the third node fails, `Stop` does not return. -/
theorem stop_mid_cycle_finishes_the_pass_witness :
    stopLoop true (fun _ => ProbeOutcome.connectFailed)
        [{ host := "10.0.0.1".toList, port := 9221, group_id := 1, term_id := 1 },
         { host := "10.0.0.2".toList, port := 9221, group_id := 1, term_id := 1 },
         { host := "10.0.0.3".toList, port := 9221, group_id := 1, term_id := 1 }] (2 + 2)
        { running_ := true,
          pc := LoopPc.forBody
            [{ host := "10.0.0.2".toList, port := 9221, group_id := 1, term_id := 1 },
             { host := "10.0.0.3".toList, port := 9221, group_id := 1, term_id := 1 }],
          world := World.initial, probes := 1,
          started := [{ host := "10.0.0.1".toList, port := 9221, group_id := 1, term_id := 1 }] }
      = some { running_ := false, pc := LoopPc.returned,
               world := { dialed := [("10.0.0.2".toList, 9221), ("10.0.0.3".toList, 9221)],
                          commands := [],
                          sink := [Packet.bytes [], Packet.json JRoot.null, Packet.bytes [],
                            Packet.json JRoot.null] },
               probes := 1 + 2,
               started := [{ host := "10.0.0.1".toList, port := 9221, group_id := 1, term_id := 1 }] ++
                 [{ host := "10.0.0.2".toList, port := 9221, group_id := 1, term_id := 1 },
                  { host := "10.0.0.3".toList, port := 9221, group_id := 1, term_id := 1 }] } ∧
    stopLoop true
        (fun n => if n = 2 then ProbeOutcome.readFailed else ProbeOutcome.connectFailed)
        [{ host := "10.0.0.1".toList, port := 9221, group_id := 1, term_id := 1 },
         { host := "10.0.0.2".toList, port := 9221, group_id := 1, term_id := 1 },
         { host := "10.0.0.3".toList, port := 9221, group_id := 1, term_id := 1 }] 100
        { running_ := true,
          pc := LoopPc.forBody
            [{ host := "10.0.0.2".toList, port := 9221, group_id := 1, term_id := 1 },
             { host := "10.0.0.3".toList, port := 9221, group_id := 1, term_id := 1 }],
          world := World.initial, probes := 1,
          started := [{ host := "10.0.0.1".toList, port := 9221, group_id := 1, term_id := 1 }] }
      = none :=
  ⟨((stop_mid_cycle_finishes_the_pass true (fun _ => ProbeOutcome.connectFailed)
      [{ host := "10.0.0.1".toList, port := 9221, group_id := 1, term_id := 1 },
       { host := "10.0.0.2".toList, port := 9221, group_id := 1, term_id := 1 },
       { host := "10.0.0.3".toList, port := 9221, group_id := 1, term_id := 1 }]
      { running_ := true,
        pc := LoopPc.forBody
          [{ host := "10.0.0.2".toList, port := 9221, group_id := 1, term_id := 1 },
           { host := "10.0.0.3".toList, port := 9221, group_id := 1, term_id := 1 }],
        world := World.initial, probes := 1,
        started := [{ host := "10.0.0.1".toList, port := 9221, group_id := 1, term_id := 1 }] }
      [{ host := "10.0.0.2".toList, port := 9221, group_id := 1, term_id := 1 },
       { host := "10.0.0.3".toList, port := 9221, group_id := 1, term_id := 1 }] rfl).1
      { dialed := [("10.0.0.2".toList, 9221), ("10.0.0.3".toList, 9221)],
        commands := [],
        sink := [Packet.bytes [], Packet.json JRoot.null, Packet.bytes [],
          Packet.json JRoot.null] }
      (by decide)).1,
    (stop_mid_cycle_finishes_the_pass true
      (fun n => if n = 2 then ProbeOutcome.readFailed else ProbeOutcome.connectFailed)
      [{ host := "10.0.0.1".toList, port := 9221, group_id := 1, term_id := 1 },
       { host := "10.0.0.2".toList, port := 9221, group_id := 1, term_id := 1 },
       { host := "10.0.0.3".toList, port := 9221, group_id := 1, term_id := 1 }]
      { running_ := true,
        pc := LoopPc.forBody
          [{ host := "10.0.0.2".toList, port := 9221, group_id := 1, term_id := 1 },
           { host := "10.0.0.3".toList, port := 9221, group_id := 1, term_id := 1 }],
        world := World.initial, probes := 1,
        started := [{ host := "10.0.0.1".toList, port := 9221, group_id := 1, term_id := 1 }] }
      [{ host := "10.0.0.2".toList, port := 9221, group_id := 1, term_id := 1 },
       { host := "10.0.0.3".toList, port := 9221, group_id := 1, term_id := 1 }] rfl).2
      { dialed := [("10.0.0.2".toList, 9221), ("10.0.0.3".toList, 9221)],
        commands := [pkpingCmd 1 1 []], sink := [Packet.bytes [], Packet.json JRoot.null] }
      (by
        have hf : ∀ w : World, runNode true w ProbeOutcome.connectFailed
              { host := "10.0.0.2".toList, port := 9221, group_id := 1, term_id := 1 }
            = RunResult.completed
                { dialed := w.dialed ++ [("10.0.0.2".toList, 9221)], commands := w.commands,
                  sink := w.sink ++ [Packet.bytes []] ++ [Packet.json JRoot.null] } := by
          intro w
          have hp : parseInfoReplication [] = some { info := [], slaves := [] } := by decide
          have hb : buildRoot { info := [], slaves := [] } = some JRoot.null := by decide
          simp only [runNode, PKPingRedis, hp, hb, if_true]
        have hr : ∀ w : World, runNode true w ProbeOutcome.readFailed
              { host := "10.0.0.3".toList, port := 9221, group_id := 1, term_id := 1 }
            = RunResult.raised
                { dialed := w.dialed ++ [("10.0.0.3".toList, 9221)],
                  commands := w.commands ++ [pkpingCmd 1 1 []], sink := w.sink } := by
          intro w
          simp only [runNode, PKPingRedis, ProbeOutcome.readFailed, sendRedisCommand_readFailed]
        simp only [runCycle, Nat.reduceAdd, Nat.succ_ne_self, if_false, if_true,
          OfNat.ofNat_ne_one, Nat.reduceEqDiff, OfNat.one_ne_ofNat]
        rw [hf]
        simp only []
        rw [hr]
        rfl) 100⟩

/-! ## Claim C18 -/

theorem natToString_injective (a b : Nat) (h : natToString a = natToString b) : a = b := by
  have ha := (toDigits_spec a).2.2
  have hb := (toDigits_spec b).2.2
  unfold natToString at h
  rw [h] at ha
  rw [← ha, hb]

theorem to_string_injective (n m : Int) (h : to_string n = to_string m) : n = m := by
  obtain ⟨hne, hdig, hval⟩ := toDigits_spec n.natAbs
  obtain ⟨hne', hdig', hval'⟩ := toDigits_spec m.natAbs
  have habs : Nat.toDigits 10 n.natAbs = Nat.toDigits 10 m.natAbs → n.natAbs = m.natAbs :=
    natToString_injective _ _
  have hminus : ∀ k : Nat, '-' ∉ Nat.toDigits 10 k := by
    intro k hk
    exact (isDigit_not_space _ ((toDigits_spec k).2.1 _ hk)).2.1 rfl
  unfold to_string at h
  by_cases hn : n < 0
  · by_cases hm : m < 0
    · simp only [hn, hm, if_true, List.cons.injEq, true_and] at h
      have := habs h
      omega
    · simp only [hn, hm, if_true, if_false] at h
      exact absurd (h ▸ List.mem_cons_self _ _) (hminus _)
  · by_cases hm : m < 0
    · simp only [hn, hm, if_true, if_false] at h
      exact absurd (h ▸ List.mem_cons_self _ _) (hminus _)
    · simp only [hn, hm, if_false] at h
      have := habs h
      omega

theorem digits_then_stop_injective (d1 d2 r1 r2 : Str) (c : Char)
    (h1 : ∀ x ∈ d1, isDigit x = true) (h2 : ∀ x ∈ d2, isDigit x = true)
    (hc : isDigit c = false) (h : d1 ++ c :: r1 = d2 ++ c :: r2) : d1 = d2 ∧ r1 = r2 := by
  have e1 := takeWhile_append_stop isDigit d1 (c :: r1) h1 (by simpa using hc)
  have e2 := takeWhile_append_stop isDigit d2 (c :: r2) h2 (by simpa using hc)
  have hd : d1 = d2 := by rw [← e1, ← e2, h]
  subst hd
  have := List.append_cancel_left h
  exact ⟨rfl, (List.cons.inj this).2⟩

theorem specBulk_injective (a b x y : Str) (h : specBulk a ++ x = specBulk b ++ y) :
    a = b ∧ x = y := by
  unfold specBulk at h
  simp only [List.cons_append, List.append_assoc, List.cons.injEq, true_and, List.nil_append] at h
  have hcr : isDigit '\r' = false := by decide
  obtain ⟨hlen, hrest⟩ := digits_then_stop_injective _ _ _ _ '\r'
    (toDigits_spec a.length).2.1 (toDigits_spec b.length).2.1 hcr h
  have hl : a.length = b.length := natToString_injective _ _ hlen
  have hrest' := (List.cons.inj hrest).2
  obtain ⟨hab, htail⟩ := List.append_inj hrest' hl
  refine ⟨hab, ?_⟩
  simpa using htail

theorem pkpingCmd_frames (groupId termId : Int) (payload : Str) :
    pkpingCmd groupId termId payload =
      "*4\r\n$6\r\nPKPING\r\n".toList ++
        (specBulk (to_string groupId) ++ (specBulk (to_string termId) ++
          (specBulk payload ++ []))) := by
  simp [pkpingCmd, specBulk, String.toList, List.append_assoc]

/-- C18: the heartbeat command determines its three arguments. When the commands
built for (groupId, termId, payload) and for (groupId', termId', payload') are
the same byte string, the group ids are equal, the term ids are equal and the
payloads are equal, whatever bytes the payloads hold. -/
theorem pkpingCmd_injective (groupId termId groupId' termId' : Int) (payload payload' : Str)
    (h : pkpingCmd groupId termId payload = pkpingCmd groupId' termId' payload') :
    groupId = groupId' ∧ termId = termId' ∧ payload = payload' := by
  rw [pkpingCmd_frames, pkpingCmd_frames] at h
  have h1 := List.append_cancel_left h
  obtain ⟨hg, h2⟩ := specBulk_injective _ _ _ _ h1
  obtain ⟨ht, h3⟩ := specBulk_injective _ _ _ _ h2
  obtain ⟨hp, _⟩ := specBulk_injective _ _ _ _ h3
  exact ⟨to_string_injective _ _ hg, to_string_injective _ _ ht, hp⟩

/-- C18, at two commands whose payload holds `\r\n` and `$`. -/
theorem pkpingCmd_injective_witness :
    pkpingCmd 7 3 "x\r\n$1\r\ny".toList
      = pkpingCmd (3 + 4) (1 + 2) ("x\r\n".toList ++ "$1\r\ny".toList) ∧
    ((7 : Int) = 3 + 4 ∧ (3 : Int) = 1 + 2 ∧
      "x\r\n$1\r\ny".toList = "x\r\n".toList ++ "$1\r\ny".toList) :=
  ⟨by decide,
    pkpingCmd_injective 7 3 (3 + 4) (1 + 2) "x\r\n$1\r\ny".toList
      ("x\r\n".toList ++ "$1\r\ny".toList) (by decide)⟩

/-! ## Claim C12 -/

theorem Dict.set_set_same {T : Type} (k : Str) (v1 v2 : T) (m : Dict T) :
    Dict.set k v2 (Dict.set k v1 m) = Dict.set k v2 m := by
  induction m with
  | nil => simp [Dict.set]
  | cons e rest ih =>
    obtain ⟨k', v'⟩ := e
    by_cases hk : k = k'
    · simp [Dict.set, hk]
    · by_cases hlt : strLt k k' = true
      · simp [Dict.set, hk, hlt]
      · simp [Dict.set, hk, hlt, ih]

theorem Dict.sorted_map {T U : Type} (f : T → U) (m : Dict T) (h : Dict.Sorted m) :
    Dict.Sorted (m.map (fun kv => (kv.1, f kv.2))) := by
  unfold Dict.Sorted at h ⊢
  rw [List.pairwise_map]
  exact h

theorem Dict.get_map {T U : Type} (f : T → U) (m : Dict T) (k : Str) :
    Dict.get k (m.map (fun kv => (kv.1, f kv.2))) = (Dict.get k m).map f := by
  induction m with
  | nil => rfl
  | cons e rest ih =>
    obtain ⟨k', v'⟩ := e
    by_cases hk : k = k'
    · simp [Dict.get, hk]
    · simp only [List.map_cons, Dict.get, hk, if_false]
      exact ih

theorem rootSetString_fold (info : Dict Str) (root : JRoot) (hne : info ≠ []) :
    info.foldl (fun root kv => rootSetString root kv.1 kv.2) root
      = JRoot.object (info.foldl
          (fun d kv => Dict.set kv.1 (JMember.scalar (JScalar.str kv.2)) d) root.members) := by
  induction info generalizing root with
  | nil => exact absurd rfl hne
  | cons kv rest ih =>
    simp only [List.foldl_cons]
    cases rest with
    | nil => rfl
    | cons kv' rest' =>
      rw [ih _ (by simp)]
      rfl

theorem rootSetString_fold_sorted (info : Dict Str) (hs : Dict.Sorted info) (hne : info ≠ []) :
    info.foldl (fun root kv => rootSetString root kv.1 kv.2) JRoot.null
      = JRoot.object (info.map (fun kv => (kv.1, JMember.scalar (JScalar.str kv.2)))) := by
  rw [rootSetString_fold info JRoot.null hne]
  have h := Dict.foldl_set_sorted []
    (info.map (fun kv => (kv.1, JMember.scalar (JScalar.str kv.2))))
    (by simpa using Dict.sorted_map (fun v => JMember.scalar (JScalar.str v)) info hs)
  rw [List.foldl_map] at h
  simp only [List.nil_append] at h
  exact congrArg JRoot.object h

theorem rootAppendSlaves_array (root : JRoot) (items : List (Dict JScalar))
    (slaves : List InfoSlave)
    (h : Dict.get "slaves".toList root.members = some (JMember.array items)) (hne : slaves ≠ []) :
    rootAppendSlaves root slaves
      = some (JRoot.object (Dict.set "slaves".toList
          (JMember.array (items ++ slaves.map slaveObject)) root.members)) := by
  induction slaves generalizing root items with
  | nil => exact absurd rfl hne
  | cons slave rest ih =>
    have h1 : rootAppendSlave root (slaveObject slave)
        = some (JRoot.object (Dict.set "slaves".toList
            (JMember.array (items ++ [slaveObject slave])) root.members)) := by
      unfold rootAppendSlave
      rw [h]
    unfold rootAppendSlaves
    rw [h1]
    cases rest with
    | nil => simp [rootAppendSlaves]
    | cons slave' rest' =>
      simp only []
      rw [ih (JRoot.object (Dict.set "slaves".toList
          (JMember.array (items ++ [slaveObject slave])) root.members))
        (items ++ [slaveObject slave]) (by simp [JRoot.members, Dict.get_set_self]) (by simp)]
      simp [JRoot.members, Dict.set_set_same]

theorem rootAppendSlaves_absent (root : JRoot) (slaves : List InfoSlave)
    (h : Dict.get "slaves".toList root.members = none) (hne : slaves ≠ []) :
    rootAppendSlaves root slaves
      = some (JRoot.object (Dict.set "slaves".toList
          (JMember.array (slaves.map slaveObject)) root.members)) := by
  cases slaves with
  | nil => exact absurd rfl hne
  | cons slave rest =>
    have h1 : rootAppendSlave root (slaveObject slave)
        = some (JRoot.object (Dict.set "slaves".toList
            (JMember.array [slaveObject slave]) root.members)) := by
      unfold rootAppendSlave
      rw [h]
    unfold rootAppendSlaves
    rw [h1]
    cases rest with
    | nil => simp [rootAppendSlaves]
    | cons slave' rest' =>
      simp only []
      rw [rootAppendSlaves_array (JRoot.object (Dict.set "slaves".toList
          (JMember.array [slaveObject slave]) root.members))
        [slaveObject slave] _ (by simp [JRoot.members, Dict.get_set_self]) (by simp)]
      simp [JRoot.members, Dict.set_set_same]

/-- C12, the claim as stated fails: for a status without slave descriptor the
document has no `slaves` field at all, where the claim wants an array of
length 0; and for the status without info entry and without descriptor the
document is `null`, not an object. -/
theorem C12_no_slaves_field_without_descriptor :
    buildRoot { info := [("role".toList, "master".toList)], slaves := [] }
      = some (JRoot.object [("role".toList, JMember.scalar (JScalar.str "master".toList))]) ∧
    buildRoot { info := [], slaves := [] } = some JRoot.null := by
  decide

/-- C12 (amended): for every status whose info is a map. When the status has at
least one slave descriptor and no info entry named `slaves`, the document built
for publishing is the object that has every info entry as a field with a string
value, plus the field `slaves`, the array with exactly one object per
descriptor, in the descriptors' order, so of the same length. When the status
has no descriptor, the document is the object of the info entries alone,
without a `slaves` field, and it is `null` when there is no info entry either.
The object of a descriptor has the four fields `ip`, a string, and `port`,
`state`, `offset`, integers. -/
theorem buildRoot_document (st : InfoReplication) (hmap : Dict.Sorted st.info) :
    (st.slaves ≠ [] → Dict.get "slaves".toList st.info = none →
      buildRoot st = some (JRoot.object (Dict.set "slaves".toList
        (JMember.array (st.slaves.map slaveObject))
        (st.info.map (fun kv => (kv.1, JMember.scalar (JScalar.str kv.2))))))) ∧
    (st.slaves = [] → st.info ≠ [] →
      buildRoot st = some (JRoot.object
        (st.info.map (fun kv => (kv.1, JMember.scalar (JScalar.str kv.2)))))) ∧
    (st.slaves = [] → st.info = [] → buildRoot st = some JRoot.null) ∧
    (st.slaves.map slaveObject).length = st.slaves.length ∧
    ∀ slave : InfoSlave, slaveObject slave =
      [("ip".toList, JScalar.str slave.ip), ("offset".toList, JScalar.int slave.offset),
        ("port".toList, JScalar.int slave.port), ("state".toList, JScalar.int slave.state)] := by
  obtain ⟨info, slaves⟩ := st
  simp only at hmap
  refine ⟨?_, ?_, ?_, by simp, ?_⟩
  · intro hne hnone
    simp only at hne hnone
    unfold buildRoot
    simp only
    cases info with
    | nil =>
      simp only [List.foldl_nil, List.map_nil]
      exact rootAppendSlaves_absent JRoot.null slaves rfl hne
    | cons kv rest =>
      rw [rootSetString_fold_sorted _ hmap (by simp)]
      apply rootAppendSlaves_absent _ slaves _ hne
      have := Dict.get_map (fun v => JMember.scalar (JScalar.str v)) (kv :: rest)
        "slaves".toList
      rw [hnone] at this
      exact this
  · intro hs hne
    simp only at hs hne
    subst hs
    unfold buildRoot
    simp only [rootAppendSlaves]
    rw [rootSetString_fold_sorted _ hmap hne]
  · intro hs hi
    simp only at hs hi
    subst hs
    subst hi
    rfl
  · intro slave
    simp [slaveObject, Dict.set, strLt]

/-- C12 (amended), at a status with one info entry and two descriptors. -/
theorem buildRoot_document_witness :
    Dict.Sorted [("role".toList, "master".toList)] ∧
    buildRoot
        { info := [("role".toList, "master".toList)],
          slaves := [{ ip := "10.0.0.1".toList, port := 6380, state := 1, offset := 100 },
                     { ip := "10.0.0.2".toList, port := 6381, state := 2, offset := 200 }] }
      = some (JRoot.object
          [("role".toList, JMember.scalar (JScalar.str "master".toList)),
           ("slaves".toList, JMember.array
              [[("ip".toList, JScalar.str "10.0.0.1".toList), ("offset".toList, JScalar.int 100),
                ("port".toList, JScalar.int 6380), ("state".toList, JScalar.int 1)],
               [("ip".toList, JScalar.str "10.0.0.2".toList), ("offset".toList, JScalar.int 200),
                ("port".toList, JScalar.int 6381), ("state".toList, JScalar.int 2)]])]) :=
  ⟨by simp [Dict.Sorted],
    ((buildRoot_document
      { info := [("role".toList, "master".toList)],
        slaves := [{ ip := "10.0.0.1".toList, port := 6380, state := 1, offset := 100 },
                   { ip := "10.0.0.2".toList, port := 6381, state := 2, offset := 200 }] }
      (by simp [Dict.Sorted])).1 (by decide) (by decide)).trans (by decide)⟩

/-! ## Claim C15 -/

theorem toInfoSlave_eq_some (j : SlaveJson) (d : InfoSlave) (h : toInfoSlave j = some d) :
    d.ip = memberAsString j "ip".toList ∧
    stoi (memberAsString j "port".toList) = some d.port ∧
    stoi (memberAsString j "state".toList) = some d.state ∧
    stoi (memberAsString j "offset".toList) = some d.offset := by
  unfold toInfoSlave at h
  cases hp : stoi (memberAsString j "port".toList) with
  | none => rw [hp] at h; exact absurd h (by simp)
  | some port =>
    cases hs : stoi (memberAsString j "state".toList) with
    | none => rw [hp, hs] at h; exact absurd h (by simp)
    | some state =>
      cases ho : stoi (memberAsString j "offset".toList) with
      | none => rw [hp, hs, ho] at h; exact absurd h (by simp)
      | some offset =>
        rw [hp, hs, ho] at h
        have := Option.some.inj h
        subst this
        exact ⟨rfl, rfl, rfl, rfl⟩

theorem toInfoSlave_ne_none (j : SlaveJson)
    (hp : stoi (memberAsString j "port".toList) ≠ none)
    (hs : stoi (memberAsString j "state".toList) ≠ none)
    (ho : stoi (memberAsString j "offset".toList) ≠ none) : toInfoSlave j ≠ none := by
  unfold toInfoSlave
  cases h1 : stoi (memberAsString j "port".toList) with
  | none => exact absurd h1 hp
  | some port =>
    cases h2 : stoi (memberAsString j "state".toList) with
    | none => exact absurd h2 hs
    | some state =>
      cases h3 : stoi (memberAsString j "offset".toList) with
      | none => exact absurd h3 ho
      | some offset => simp

theorem toInfoSlave_eq_none (j : SlaveJson)
    (h : stoi (memberAsString j "port".toList) = none ∨
      stoi (memberAsString j "state".toList) = none ∨
      stoi (memberAsString j "offset".toList) = none) : toInfoSlave j = none := by
  unfold toInfoSlave
  rcases h with h | h | h
  · rw [h]
  · rw [h]; split <;> rfl
  · rw [h]; split
    · rfl
    · split <;> rfl

theorem slaveGroups_sorted (text : Str) (m : Dict Str) (hm : m ∈ slaveGroups text) :
    Dict.Sorted m := by
  unfold slaveGroups at hm
  obtain ⟨line, _, hsl⟩ := List.mem_filterMap.1 hm
  unfold slaveOfLine at hsl
  split at hsl
  · exact absurd hsl (by simp)
  · split at hsl
    · have := Option.some.inj hsl
      rw [← this]
      exact slaveKvs_sorted _
    · exact absurd hsl (by simp)

theorem convertSlaves_forall2 (groups : List (Dict Str)) (hs : ∀ m ∈ groups, Dict.Sorted m)
    (ss : List InfoSlave) (h : convertSlaves (groups.map slaveToJson) = some ss) :
    List.Forall₂ fromGroup ss groups := by
  induction groups generalizing ss with
  | nil =>
    simp only [List.map_nil, convertSlaves, Option.some.injEq] at h
    subst h
    exact List.Forall₂.nil
  | cons m ms ih =>
    simp only [List.map_cons, convertSlaves] at h
    cases hd : toInfoSlave (slaveToJson m) with
    | none => rw [hd] at h; exact absurd h (by simp)
    | some d =>
      cases hr : convertSlaves (ms.map slaveToJson) with
      | none => rw [hd, hr] at h; exact absurd h (by simp)
      | some ds =>
        rw [hd, hr] at h
        have := Option.some.inj h
        subst this
        have hf := toInfoSlave_eq_some _ _ hd
        simp only [memberAsString_slaveToJson m (hs m (by simp))] at hf
        exact List.Forall₂.cons hf (ih (fun x hx => hs x (List.mem_cons_of_mem _ hx)) ds hr)

theorem parse_none_of_bad_group (text : Str) (m : Dict Str) (hm : m ∈ slaveGroups text)
    (hbad : toInfoSlave (slaveToJson m) = none) : parseInfoReplication text = none := by
  have hnone : buildSlaves (scanText text).slaveMap = none := by
    rw [buildSlaves_eq, scanText_slaveMap]
    exact convertSlaves_eq_none_of_mem _ _ (List.mem_map_of_mem _ hm) hbad
  unfold parseInfoReplication
  simp only [hnone]

/-- C15, the claim as stated fails: a port subvalue that is not wholly an integer,
`12abc`, gives a descriptor with the port 12 read at its start; a group without
the subkey `ip` gives a descriptor with the empty ip; and a group with an empty
port gives no output at all, the parser raises. -/
theorem C15_partial_parse_and_default_ip :
    parseInfoReplication "slave0:ip=1.2.3.4,port=12abc,state=1,offset=5".toList
      = some { info := [],
               slaves := [{ ip := "1.2.3.4".toList, port := 12, state := 1, offset := 5 }] } ∧
    parseInfoReplication "slave0:port=6380,state=1,offset=5".toList
      = some { info := [], slaves := [{ ip := [], port := 6380, state := 1, offset := 5 }] } ∧
    parseInfoReplication "slave0:ip=1.2.3.4,port=,state=1,offset=5".toList = none := by
  decide

/-- C15 (amended): when the parser returns, its slaves sequence matches the groups
of the text one to one, in order, and every descriptor is populated from its
group as follows: `ip` is the subvalue of `ip`, empty when the group has no such
subkey; `port`, `state` and `offset` are the integers that `std::stoi` reads at
the start of the subvalues (after optional white space and sign; what follows
the digits is ignored). The parser returns exactly when in every group the
three numeric subvalues begin with such an integer; a group in which one is
missing, empty or does not begin with an integer makes the parser raise. -/
theorem descriptors_read_by_stoi (text : Str) :
    (∀ st, parseInfoReplication text = some st →
      List.Forall₂ fromGroup st.slaves (slaveGroups text)) ∧
    ((∀ m ∈ slaveGroups text,
        stoi (subvalue m "port".toList) ≠ none ∧ stoi (subvalue m "state".toList) ≠ none ∧
        stoi (subvalue m "offset".toList) ≠ none) →
      ∃ st, parseInfoReplication text = some st) ∧
    ((∃ m ∈ slaveGroups text,
        stoi (subvalue m "port".toList) = none ∨ stoi (subvalue m "state".toList) = none ∨
        stoi (subvalue m "offset".toList) = none) →
      parseInfoReplication text = none) := by
  refine ⟨?_, ?_, ?_⟩
  · intro st h
    obtain ⟨hs, _⟩ := parse_eq_some text st h
    rw [buildSlaves_eq, scanText_slaveMap] at hs
    exact convertSlaves_forall2 _ (fun m hm => slaveGroups_sorted text m hm) _ hs
  · intro hall
    have hconv : ∀ j ∈ ((scanText text).slaveMap).map slaveToJson, toInfoSlave j ≠ none := by
      intro j hj
      rw [scanText_slaveMap] at hj
      obtain ⟨m, hm, rfl⟩ := List.mem_map.1 hj
      have hsorted := slaveGroups_sorted text m hm
      obtain ⟨h1, h2, h3⟩ := hall m hm
      apply toInfoSlave_ne_none
      · rw [memberAsString_slaveToJson m hsorted]; exact h1
      · rw [memberAsString_slaveToJson m hsorted]; exact h2
      · rw [memberAsString_slaveToJson m hsorted]; exact h3
    obtain ⟨ss, hss, _⟩ := convertSlaves_of_all_some _ hconv
    refine ⟨InfoReplication.mk (scanText text).info ss, ?_⟩
    unfold parseInfoReplication
    simp only [buildSlaves_eq, hss]
  · rintro ⟨m, hm, hbad⟩
    have hsorted := slaveGroups_sorted text m hm
    apply parse_none_of_bad_group text m hm
    apply toInfoSlave_eq_none
    simp only [memberAsString_slaveToJson m hsorted]
    exact hbad

/-- C15 (amended), at the text with the port `12abc`: the parser returns and the
descriptor has the port 12. -/
theorem descriptors_read_by_stoi_witness :
    parseInfoReplication "slave0:ip=1.2.3.4,port=12abc,state=1,offset=5".toList
      = some { info := [],
               slaves := [{ ip := "1.2.3.4".toList, port := 12, state := 1, offset := 5 }] } ∧
    List.Forall₂ fromGroup
      [{ ip := "1.2.3.4".toList, port := 12, state := 1, offset := 5 }]
      (slaveGroups "slave0:ip=1.2.3.4,port=12abc,state=1,offset=5".toList) :=
  ⟨by decide,
    (descriptors_read_by_stoi "slave0:ip=1.2.3.4,port=12abc,state=1,offset=5".toList).1
      { info := [], slaves := [{ ip := "1.2.3.4".toList, port := 12, state := 1, offset := 5 }] }
      (by decide)⟩

/-! ## Claim C17 -/

theorem positionalLines_none_of_mem (slave0 : InfoSlave) (lines : List Str) (line : Str)
    (hmem : line ∈ lines) (hbad : ∀ r, positionalLine slave0 r line = none)
    (r : InfoReplication) : positionalLines slave0 r lines = none := by
  induction lines generalizing r with
  | nil => simp at hmem
  | cons l ls ih =>
    unfold positionalLines
    rcases List.mem_cons.1 hmem with h | h
    · subst h
      rw [hbad r]
    · cases positionalLine slave0 r l with
      | none => rfl
      | some r' => exact ih h r'

theorem stoi_none_of_letter (c : Char) (rest : Str) (h1 : isSpace c = false)
    (h2 : isDigit c = false) (h3 : c ≠ '-') (h4 : c ≠ '+') : stoi (c :: rest) = none := by
  have e1 : ((some c : Option Char) == some '-') = false := by simpa using h3
  have e2 : ((some c : Option Char) == some '+') = false := by simpa using h4
  unfold stoi
  simp only [List.dropWhile_cons, h1, Bool.false_eq_true, if_false, List.head?_cons, e1, e2,
    Bool.or_self, List.takeWhile_cons, h2, List.isEmpty_nil, if_true]

theorem positionalLine_keyed_raises (slave0 : InfoSlave) (r : InfoReplication)
    (digits ip suffix : Str) (port state offset : Int)
    (hd2 : digits.all isDigit = true) (hip : ',' ∉ ip) :
    positionalLine slave0 r (keyedSlaveLine digits ip port state offset ++ suffix) = none := by
  have hdig : ∀ c ∈ digits, isDigit c = true := fun c hc => List.all_eq_true.1 hd2 c hc
  have hdc : ':' ∉ digits := fun h => (isDigit_not_space _ (hdig _ h)).2.2.2.2.2 rfl
  have hline : keyedSlaveLine digits ip port state offset ++ suffix
      = ("slave".toList ++ digits) ++ ':' ::
          (("ip".toList ++ '=' :: ip) ++ ',' :: (("port".toList ++ '=' :: to_string port) ++
            ',' :: ("state".toList ++ '=' :: to_string state ++
            ',' :: ("offset".toList ++ '=' :: (to_string offset ++ suffix))))) := by
    simp [keyedSlaveLine, String.toList, List.append_assoc]
  have hcolon : ':' ∉ "slave".toList ++ digits := by
    simp [String.toList, hdc]
  have hc1 : ',' ∉ "ip".toList ++ '=' :: ip := by simp [hip]
  have hc2 : ',' ∉ "port".toList ++ '=' :: to_string port := by
    simp [(to_string_no_comma_newline port).1]
  have hhead : ((keyedSlaveLine digits ip port state offset ++ suffix).isEmpty ||
      (keyedSlaveLine digits ip port state offset ++ suffix).head? == some '#') = false := by
    rw [hline]
    simp [String.toList]
  have hkey : findAtZero "slave".toList ("slave".toList ++ digits) = true := by
    simp [findAtZero, String.toList]
  have hport : stoi ("port".toList ++ '=' :: to_string port) = none :=
    stoi_none_of_letter 'p' _ (by decide) (by decide) (by decide) (by decide)
  unfold positionalLine
  rw [hhead]
  simp only [Bool.false_eq_true, if_false]
  rw [hline, find_append_cons ':' _ _ hcolon]
  simp only [(take_drop_at_colon ':' _ _).1, (take_drop_at_colon ':' _ _).2, hkey, if_true]
  rw [getlines_line_delim ',' _ _ hc1, getlines_line_delim ',' _ _ hc2]
  simp only [positionalFields, if_true, Nat.zero_add, Nat.one_ne_zero, if_false, hport]

theorem mem_of_mem_getlines (d : Char) (s p : Str) (hp : p ∈ getlines d s) (c : Char)
    (hc : c ∈ p) : c ∈ s := by
  induction s generalizing p with
  | nil => simp [getlines] at hp
  | cons x xs ih =>
    unfold getlines at hp
    split at hp
    · rcases List.mem_cons.1 hp with h | h
      · subst h; simp at hc
      · exact List.mem_cons_of_mem _ (ih p h hc)
    · split at hp
      · simp only [List.mem_singleton] at hp
        subst hp
        have : c = x := by simpa using hc
        simp [this]
      · rename_i l ls hl
        rcases List.mem_cons.1 hp with h | h
        · subst h
          rcases List.mem_cons.1 hc with e | e
          · simp [e]
          · exact List.mem_cons_of_mem _ (ih l (by rw [hl]; simp) e)
        · exact List.mem_cons_of_mem _ (ih p (by rw [hl]; simp [h]) hc)

theorem slaveKvs_without_equals (value : Str) (h : '=' ∉ value) : slaveKvs value = [] := by
  unfold slaveKvs
  have hall : ∀ p ∈ getlines ',' value, find '=' p = none := by
    intro p hp
    apply find_eq_none
    intro hc
    exact h (mem_of_mem_getlines ',' value p hp '=' hc)
  generalize getlines ',' value = ps at hall
  induction ps with
  | nil => rfl
  | cons p ps ih =>
    rw [List.foldl_cons, hall p (by simp)]
    exact ih (fun q hq => hall q (List.mem_cons_of_mem _ hq))

/-- C17, the claim as stated fails: neither parser returns on the slave line of
the other form. The positional parser raises on the keyed line, at the token
`port=6380`; the keyed parser raises on the positional line, where it finds no
subkey. Each parser returns the descriptor on the line of its own form. -/
theorem C17_each_parser_raises_on_the_other_form :
    pikiwidb.parseInfoReplication { ip := [], port := 0, state := 0, offset := 0 }
      "slave0:ip=127.0.0.1,port=6380,state=1,offset=100".toList = none ∧
    parseInfoReplication "slave0:127.0.0.1,6380,1,100".toList = none ∧
    pikiwidb.parseInfoReplication { ip := [], port := 0, state := 0, offset := 0 }
      "slave0:127.0.0.1,6380,1,100".toList
      = some { info := [],
               slaves := [{ ip := "127.0.0.1".toList, port := 6380, state := 1, offset := 100 }] } ∧
    parseInfoReplication "slave0:ip=127.0.0.1,port=6380,state=1,offset=100".toList
      = some { info := [],
               slaves := [{ ip := "127.0.0.1".toList, port := 6380, state := 1, offset := 100 }] } := by
  decide

/-- C17 (amended): the two parsers are incompatible. On the two lines of the
claim neither misparses silently, each raises. On every text that has a keyed
slave line `slave<digits>:ip=..,port=..,state=..,offset=..`, with nothing
before the key, the positional parser raises (the second token, `port=..`, is
not a number), whatever the value of a default-initialised descriptor is. On
every text that has a slave line whose value holds no `=`, such as a positional
line, the keyed parser raises (no subkey is found, and the empty string is not
a number). Silent misparses exist on other input. On the keyed line preceded
by a space the keyed parser returns the descriptor, while the positional
parser returns normally with an info entry and no descriptor. On the line
`slave0:10.0.0.9,1,2,3,ip=127.0.0.1,port=6380,state=1,offset=100` both return
normally, with different descriptors. -/
theorem parsers_are_incompatible (slave0 : InfoSlave) (text digits ip suffix : Str)
    (port state offset : Int) (key value : Str)
    (hd : digits.all isDigit = true) (hip : ',' ∉ ip)
    (hkey : ':' ∉ key) (hpat : matchSlavePattern (trimKey key) = true)
    (hval : '=' ∉ value) :
    (keyedSlaveLine digits ip port state offset ++ suffix ∈ getlines '\n' text →
      pikiwidb.parseInfoReplication slave0 text = none) ∧
    (key ++ ':' :: value ∈ getlines '\n' text → parseInfoReplication text = none) ∧
    (parseInfoReplication " slave0:ip=127.0.0.1,port=6380,state=1,offset=100".toList
        = some { info := [],
                 slaves := [{ ip := "127.0.0.1".toList, port := 6380, state := 1,
                              offset := 100 }] } ∧
      pikiwidb.parseInfoReplication slave0
          " slave0:ip=127.0.0.1,port=6380,state=1,offset=100".toList
        = some { info := [(" slave0".toList,
                           "ip=127.0.0.1,port=6380,state=1,offset=100".toList)],
                 slaves := [] }) ∧
    (parseInfoReplication
          "slave0:10.0.0.9,1,2,3,ip=127.0.0.1,port=6380,state=1,offset=100".toList
        = some { info := [],
                 slaves := [{ ip := "127.0.0.1".toList, port := 6380, state := 1,
                              offset := 100 }] } ∧
      pikiwidb.parseInfoReplication slave0
          "slave0:10.0.0.9,1,2,3,ip=127.0.0.1,port=6380,state=1,offset=100".toList
        = some { info := [],
                 slaves := [{ ip := "10.0.0.9".toList, port := 1, state := 2, offset := 3 }] }) := by
  refine ⟨?_, ?_, ⟨by decide, rfl⟩, ⟨by decide, rfl⟩⟩
  · intro hline
    unfold pikiwidb.parseInfoReplication
    exact positionalLines_none_of_mem slave0 _ _ hline
      (fun r => positionalLine_keyed_raises slave0 r digits ip suffix port state offset hd hip) _
  · intro hline
    have hm : slaveKvs value ∈ slaveGroups text := by
      unfold slaveGroups
      rw [List.mem_filterMap]
      exact ⟨_, hline, slaveOfLine_slave key value hkey hpat⟩
    apply parse_none_of_bad_group text _ hm
    rw [slaveKvs_without_equals value hval]
    decide

/-- C17 (amended), at the two lines of the claim. -/
theorem parsers_are_incompatible_witness :
    (keyedSlaveLine "0".toList "127.0.0.1".toList 6380 1 100 ++ []
      = "slave0:ip=127.0.0.1,port=6380,state=1,offset=100".toList) ∧
    pikiwidb.parseInfoReplication { ip := [], port := 0, state := 0, offset := 0 }
      "slave0:ip=127.0.0.1,port=6380,state=1,offset=100".toList = none ∧
    parseInfoReplication "slave0:127.0.0.1,6380,1,100".toList = none :=
  ⟨by decide,
    (parsers_are_incompatible { ip := [], port := 0, state := 0, offset := 0 }
      "slave0:ip=127.0.0.1,port=6380,state=1,offset=100".toList "0".toList "127.0.0.1".toList []
      6380 1 100 "slave0".toList "127.0.0.1,6380,1,100".toList
      (by decide) (by decide) (by decide) (by decide) (by decide)).1 (by decide),
    (parsers_are_incompatible { ip := [], port := 0, state := 0, offset := 0 }
      "slave0:127.0.0.1,6380,1,100".toList "0".toList "127.0.0.1".toList []
      6380 1 100 "slave0".toList "127.0.0.1,6380,1,100".toList
      (by decide) (by decide) (by decide) (by decide) (by decide)).2.1 (by decide)⟩

/-! ## Claim C11 -/

theorem dbKvs_eq_writes (value : Str) (info : Dict Str) :
    dbKvs value info =
      ((getlines ',' value).flatMap dbPairWrites).foldl (fun d kv => Dict.set kv.1 kv.2 d)
        info := by
  unfold dbKvs
  generalize getlines ',' value = ps
  induction ps generalizing info with
  | nil => rfl
  | cons p ps ih =>
    rw [List.foldl_cons, List.flatMap_cons, List.foldl_append, ih]
    congr 1
    unfold dbPairWrites
    split
    · rfl
    · dsimp only
      split
      · split <;> rfl
      · rfl

theorem infoOfLine_eq_writes (info : Dict Str) (line : Str) :
    infoOfLine info line = (lineWrites line).foldl (fun d kv => Dict.set kv.1 kv.2 d) info := by
  unfold infoOfLine lineWrites
  split
  · rfl
  · split
    · rfl
    · split
      · exact dbKvs_eq_writes _ _
      · rfl

theorem scanText_info_eq_writes (text : Str) :
    (scanText text).info = (textWrites text).foldl (fun d kv => Dict.set kv.1 kv.2 d) [] := by
  rw [scanText_info]
  unfold textWrites
  generalize getlines '\n' text = ls
  generalize ([] : Dict Str) = m
  induction ls generalizing m with
  | nil => rfl
  | cons l ls ih =>
    rw [List.foldl_cons, List.flatMap_cons, List.foldl_append, ih, infoOfLine_eq_writes]

theorem Dict.set_perm {T : Type} (k : Str) (v : T) (m : Dict T)
    (h : k ∉ m.map Prod.fst) : List.Perm (Dict.set k v m) ((k, v) :: m) := by
  induction m with
  | nil => exact List.Perm.refl _
  | cons e rest ih =>
    obtain ⟨k', v'⟩ := e
    have hk : k ≠ k' := by
      intro e
      subst e
      exact h (List.mem_cons_self _ _)
    have hrest : k ∉ rest.map Prod.fst := fun e => h (List.mem_cons_of_mem _ e)
    unfold Dict.set
    rw [if_neg hk]
    split
    · exact List.Perm.refl _
    · exact ((ih hrest).cons (k', v')).trans (List.Perm.swap (k, v) (k', v') rest)

theorem Dict.foldl_set_perm {T : Type} (ws m : Dict T)
    (hnodup : ((m ++ ws).map Prod.fst).Nodup) :
    List.Perm (ws.foldl (fun d kv => Dict.set kv.1 kv.2 d) m) (m ++ ws) := by
  induction ws generalizing m with
  | nil => simp
  | cons w ws ih =>
    obtain ⟨k, v⟩ := w
    have hk : k ∉ m.map Prod.fst := by
      intro hmem
      rw [List.map_append, List.nodup_append] at hnodup
      exact hnodup.2.2 hmem (List.mem_cons_self _ _)
    have h1 : List.Perm (Dict.set k v m) ((k, v) :: m) := Dict.set_perm k v m hk
    have hmid : List.Perm (m ++ (k, v) :: ws) ((k, v) :: (m ++ ws)) := List.perm_middle
    have h2 : List.Perm (Dict.set k v m ++ ws) (m ++ (k, v) :: ws) :=
      (List.Perm.append_right ws h1).trans hmid.symm
    have hnodup' : ((Dict.set k v m ++ ws).map Prod.fst).Nodup :=
      ((h2.map Prod.fst).nodup_iff).2 hnodup
    rw [List.foldl_cons]
    exact (ih (Dict.set k v m) hnodup').trans h2

theorem Dict.eq_of_perm_of_sorted {T : Type} (m1 m2 : Dict T) (hp : List.Perm m1 m2)
    (h1 : Dict.Sorted m1) (h2 : Dict.Sorted m2) : m1 = m2 := by
  haveI : IsAntisymm (Str × T) (fun a b => strLt a.1 b.1 = true) :=
    ⟨fun a b hab hba => by
      have := strLt_trans _ _ _ hab hba
      rw [strLt_irrefl] at this
      exact absurd this (by simp)⟩
  exact List.eq_of_perm_of_sorted hp h1 h2

theorem Dict.foldl_set_of_perm {T : Type} (ws1 ws2 : Dict T) (hp : List.Perm ws1 ws2)
    (hnodup : (ws1.map Prod.fst).Nodup) :
    ws1.foldl (fun d kv => Dict.set kv.1 kv.2 d) [] =
      ws2.foldl (fun d kv => Dict.set kv.1 kv.2 d) [] := by
  have hnodup2 : (ws2.map Prod.fst).Nodup := ((hp.map Prod.fst).nodup_iff).1 hnodup
  have p1 := Dict.foldl_set_perm ws1 [] (by simpa using hnodup)
  have p2 := Dict.foldl_set_perm ws2 [] (by simpa using hnodup2)
  simp only [List.nil_append] at p1 p2
  exact Dict.eq_of_perm_of_sorted _ _ (p1.trans (hp.trans p2.symm))
    (Dict.foldl_set_is_sorted _ _ (by simp [Dict.Sorted]))
    (Dict.foldl_set_is_sorted _ _ (by simp [Dict.Sorted]))

theorem filterMap_slaveOfLine_filter (lines : List Str) :
    lines.filterMap slaveOfLine = (lines.filter isSlaveLine).filterMap slaveOfLine := by
  induction lines with
  | nil => rfl
  | cons l ls ih =>
    cases h : slaveOfLine l with
    | none =>
      have hf : isSlaveLine l = false := by simp [isSlaveLine, h]
      rw [List.filterMap_cons, h]
      simp only [List.filter, hf]
      exact ih
    | some m =>
      have hf : isSlaveLine l = true := by simp [isSlaveLine, h]
      rw [List.filterMap_cons, h]
      simp only [List.filter, hf]
      rw [List.filterMap_cons, h, ih]

theorem parse_of_all_groups_good (text : Str)
    (h : ∀ m ∈ slaveGroups text, toInfoSlave (slaveToJson m) ≠ none) :
    ∃ ss, parseInfoReplication text = some { info := (scanText text).info, slaves := ss } := by
  have hconv : ∀ j ∈ ((scanText text).slaveMap).map slaveToJson, toInfoSlave j ≠ none := by
    intro j hj
    rw [scanText_slaveMap] at hj
    obtain ⟨m, hm, rfl⟩ := List.mem_map.1 hj
    exact h m hm
  obtain ⟨ss, hss, _⟩ := convertSlaves_of_all_some _ hconv
  refine ⟨ss, ?_⟩
  unfold parseInfoReplication
  simp only [buildSlaves_eq, hss]

/-- C11, the claim as stated fails: the two texts below have the same lines in
another order, their line keys `db0` and `binlog_offset` are different, and no
line is a slave line; yet the info maps differ, because the `db0` line and the
plain line both assign `binlog_offset` and the later line wins. -/
theorem C11_db0_line_and_plain_key_collide :
    List.Perm (getlines '\n' "db0:binlog_offset=1 2\nbinlog_offset:x\n".toList)
      (getlines '\n' "binlog_offset:x\ndb0:binlog_offset=1 2\n".toList) ∧
    (specPairs "db0:binlog_offset=1 2\nbinlog_offset:x\n".toList).map Prod.fst
      = ["db0".toList, "binlog_offset".toList] ∧
    parseInfoReplication "db0:binlog_offset=1 2\nbinlog_offset:x\n".toList
      = some { info := [("binlog_file_num".toList, "1".toList),
                        ("binlog_offset".toList, "x".toList)],
               slaves := [] } ∧
    parseInfoReplication "binlog_offset:x\ndb0:binlog_offset=1 2\n".toList
      = some { info := [("binlog_file_num".toList, "1".toList),
                        ("binlog_offset".toList, "2".toList)],
               slaves := [] } := by
  decide

/-- C11 (amended): for every two texts whose lines are permutations of each other
and in which no info key is assigned twice (a plain line assigns its trimmed
key; a `db0` line assigns `binlog_file_num` and `binlog_offset` for a pair
`binlog_offset=A B`; a slave line assigns nothing), the info maps of the two
results are equal, and the parser returns on one text exactly when it returns
on the other; and if additionally the slave lines appear in the same order,
the two results are equal, slaves sequences included. -/
theorem parse_independent_of_line_order (text1 text2 : Str)
    (hperm : List.Perm (getlines '\n' text1) (getlines '\n' text2))
    (hnodup : ((textWrites text1).map Prod.fst).Nodup) :
    (parseInfoReplication text1).map InfoReplication.info
      = (parseInfoReplication text2).map InfoReplication.info ∧
    ((getlines '\n' text1).filter isSlaveLine = (getlines '\n' text2).filter isSlaveLine →
      parseInfoReplication text1 = parseInfoReplication text2) := by
  have hinfo : (scanText text1).info = (scanText text2).info := by
    rw [scanText_info_eq_writes, scanText_info_eq_writes]
    exact Dict.foldl_set_of_perm _ _ (hperm.flatMap_right lineWrites) hnodup
  have hgroups : List.Perm (slaveGroups text1) (slaveGroups text2) :=
    hperm.filterMap slaveOfLine
  constructor
  · by_cases hall : ∀ m ∈ slaveGroups text1, toInfoSlave (slaveToJson m) ≠ none
    · have hall2 : ∀ m ∈ slaveGroups text2, toInfoSlave (slaveToJson m) ≠ none :=
        fun m hm => hall m (hgroups.mem_iff.2 hm)
      obtain ⟨ss1, h1⟩ := parse_of_all_groups_good text1 hall
      obtain ⟨ss2, h2⟩ := parse_of_all_groups_good text2 hall2
      rw [h1, h2]
      simp only [Option.map_some', hinfo]
    · have hex : ∃ m, m ∈ slaveGroups text1 ∧ toInfoSlave (slaveToJson m) = none := by
        by_contra hno
        apply hall
        intro m hm hbad
        exact hno ⟨m, hm, hbad⟩
      obtain ⟨m, hm, hbad⟩ := hex
      rw [parse_none_of_bad_group text1 m hm hbad,
        parse_none_of_bad_group text2 m (hgroups.mem_iff.1 hm) hbad]
  · intro hsame
    have hsm : (scanText text1).slaveMap = (scanText text2).slaveMap := by
      rw [scanText_slaveMap, scanText_slaveMap, filterMap_slaveOfLine_filter,
        filterMap_slaveOfLine_filter (getlines '\n' text2), hsame]
    unfold parseInfoReplication
    simp only [hinfo, hsm]

/-- C11 (amended), at two texts with an info line, a slave line and a `db0` line
in opposite orders. -/
theorem parse_independent_of_line_order_witness :
    List.Perm
      (getlines '\n'
        ("role:master\nslave0:ip=10.0.0.1,port=6380,state=1,offset=100\n".toList ++
          "db0:binlog_offset=1 2\n".toList))
      (getlines '\n'
        ("db0:binlog_offset=1 2\n".toList ++
          "slave0:ip=10.0.0.1,port=6380,state=1,offset=100\nrole:master\n".toList)) ∧
    parseInfoReplication
        ("role:master\nslave0:ip=10.0.0.1,port=6380,state=1,offset=100\n".toList ++
          "db0:binlog_offset=1 2\n".toList)
      = parseInfoReplication
        ("db0:binlog_offset=1 2\n".toList ++
          "slave0:ip=10.0.0.1,port=6380,state=1,offset=100\nrole:master\n".toList) :=
  ⟨by decide,
    (parse_independent_of_line_order
      ("role:master\nslave0:ip=10.0.0.1,port=6380,state=1,offset=100\n".toList ++
        "db0:binlog_offset=1 2\n".toList)
      ("db0:binlog_offset=1 2\n".toList ++
        "slave0:ip=10.0.0.1,port=6380,state=1,offset=100\nrole:master\n".toList)
      (by decide) (by decide)).2 (by decide)⟩

end Sentinel
